import Mathlib

/-!
Verification development for the AICap backend core
(`backend/app/auth/state_manager.py`, `backend/app/auth/oauth.py`,
`backend/app/auth/google_oauth.py`, `backend/app/auth/credentials.py`,
`backend/app/main.py`).

Python strings are modelled as lists of characters, Python dicts as
association lists preserving insertion order (as CPython dicts do), and
network calls as explicit outcome parameters.  Machine integers are `Nat`
or `Int`.  Fallible operations return `Option` or `Except`.
-/

namespace AICap

/-- Python strings, modelled as lists of characters. -/
abbrev Str := List Char

/-- Decimal rendering of a natural number (Python `str(n)` for `n : int`). -/
def natToStr (n : Nat) : Str := Nat.toDigits 10 n

/-- Python `s.split(":")`: the result is always nonempty, and a non-colon
character is prepended to the first piece of the split of the rest. -/
def splitOnColon : Str → List Str
  | [] => [[]]
  | c :: rest =>
    if c = ':' then [] :: splitOnColon rest
    else
      let r := splitOnColon rest
      (c :: r.headD []) :: r.tail

section Assoc

variable {α : Type}

/-- Python `d.get(k)` on an insertion-ordered dict. -/
def lookupAssoc (k : Str) : List (Str × α) → Option α
  | [] => none
  | kv :: rest => if kv.1 = k then some kv.2 else lookupAssoc k rest

/-- Python `k in d`. -/
def containsKey (k : Str) (l : List (Str × α)) : Bool :=
  (lookupAssoc k l).isSome

/-- Python `d[k] = v`: replace in place when the key exists (dict order is
preserved on overwrite), append otherwise. -/
def insertAssoc (k : Str) (v : α) (l : List (Str × α)) : List (Str × α) :=
  if containsKey k l then l.map (fun kv => if kv.1 = k then (k, v) else kv)
  else l ++ [(k, v)]

/-- Python `del d[k]` (also `d.pop(k, None)` for its dict effect). -/
def eraseAssoc (k : Str) (l : List (Str × α)) : List (Str × α) :=
  l.filter (fun kv => decide (kv.1 ≠ k))

/-- The keys of the dict, in order. -/
def assocKeys (l : List (Str × α)) : List Str := l.map Prod.fst

/-- CPython dicts never hold a key twice. -/
abbrev nodupKeys (l : List (Str × α)) : Prop := (assocKeys l).Nodup

end Assoc

/-! ## OAuth state manager (`backend/app/auth/state_manager.py`) -/

/-- `config.OAUTH_STATE_EXPIRATION`. -/
def OAUTH_STATE_EXPIRATION : Nat := 600

/-- `OAuthStateManager.MAX_PENDING_STATES`. -/
def MAX_PENDING_STATES : Nat := 100

/-- `StateData` from `state_manager.py`. -/
structure StateData where
  state : Str
  created_at : Nat
  add_new_account : Bool
  nonce : Str
  provider : Str
deriving DecidableEq, Repr

/-- The `_pending_states` dict of `OAuthStateManager`. -/
abbrev StateRegistry := List (Str × StateData)

/-- The byte string `f"{nonce}:{timestamp}".encode()` that gets signed. -/
def stateMessage (nonce : Str) (created_at : Nat) : Str :=
  nonce ++ ':' :: natToStr created_at

/-- `OAuthStateManager._cleanup_expired_unsafe`: drop every entry with
`now - created_at > OAUTH_STATE_EXPIRATION`. -/
def cleanup_expired (now : Nat) (reg : StateRegistry) : StateRegistry :=
  reg.filter (fun kv => decide (now - kv.2.created_at ≤ OAUTH_STATE_EXPIRATION))

/-- The sort key of the eviction step: `key=lambda x: x[1].created_at`. -/
def byCreatedAt (a b : Str × StateData) : Bool :=
  a.2.created_at ≤ b.2.created_at

/-- The eviction step of `create_state`: sort the registry by `created_at`
and delete the keys of the first half (`sorted_states[: len(sorted_states) // 2]`). -/
def evictOldestHalf (reg : StateRegistry) : StateRegistry :=
  let sorted := reg.mergeSort byCreatedAt
  let victims := assocKeys (sorted.take (sorted.length / 2))
  reg.filter (fun kv => decide (kv.1 ∉ victims))

/-- `OAuthStateManager.create_state`.  The HMAC
`hmac.new(self._secret, message, hashlib.sha256).hexdigest()[:16]` is
modelled by the opaque per-process function `sig`; the random
`secrets.token_hex(16)` nonce and `int(time.time())` are inputs.
Returns the token together with the updated registry. -/
def create_state (sig : Str → Str) (nonce : Str) (now : Nat)
    (add_new_account : Bool) (provider : Str) (reg : StateRegistry) :
    Str × StateRegistry :=
  let signature := sig (stateMessage nonce now)
  let state := nonce ++ ':' :: signature
  let reg1 := cleanup_expired now reg
  let reg2 := if MAX_PENDING_STATES ≤ reg1.length then evictOldestHalf reg1 else reg1
  (state, insertAssoc state ⟨state, now, add_new_account, nonce, provider⟩ reg2)

/-- `OAuthStateManager.validate_state` (non-consuming).  Checks the
`nonce:signature` format, existence, expiry (removing a genuinely expired
entry) and the HMAC signature; returns the record without removing it. -/
def validate_state (sig : Str → Str) (now : Nat) (state : Str)
    (reg : StateRegistry) : Option StateData × StateRegistry :=
  if state.isEmpty || !(state.contains ':') then (none, reg)
  else
    match lookupAssoc state reg with
    | none => (none, reg)
    | some state_data =>
      if OAUTH_STATE_EXPIRATION < now - state_data.created_at then
        (none, eraseAssoc state reg)
      else
        match splitOnColon state with
        | [nonce, signature] =>
          if signature = sig (stateMessage nonce state_data.created_at) then
            (some state_data, reg)
          else (none, reg)
        | _ => (none, reg)

/-- `OAuthStateManager.consume_state`. -/
def consume_state (state : Str) (reg : StateRegistry) : Bool × StateRegistry :=
  if containsKey state reg then (true, eraseAssoc state reg) else (false, reg)

/-- Modelled from the spec: the atomic `ValidateAndConsume` operation.
`google_oauth.py` line 136 invokes
`oauth_state_manager.validate_and_consume(state, expected_provider=...)`,
but no such method is defined in `state_manager.py` in the sources at
hand, so this definition follows the words of the spec (section 4.3):
checks, in order, format (`nonce:signature` present), existence, expiry
(`now - created_at > TTL`, TTL 600s), HMAC signature match, provider
match if an expected provider is given; on success the record is removed
and returned; any failure returns `None` and leaves no side effect
except removing a genuinely expired entry. -/
def validate_and_consume (sig : Str → Str) (now : Nat) (state : Str)
    (expected_provider : Option Str) (reg : StateRegistry) :
    Option StateData × StateRegistry :=
  if state.isEmpty || !(state.contains ':') then (none, reg)
  else
    match lookupAssoc state reg with
    | none => (none, reg)
    | some state_data =>
      if OAUTH_STATE_EXPIRATION < now - state_data.created_at then
        (none, eraseAssoc state reg)
      else
        match splitOnColon state with
        | [nonce, signature] =>
          if signature = sig (stateMessage nonce state_data.created_at) then
            match expected_provider with
            | some p =>
              if state_data.provider = p then (some state_data, eraseAssoc state reg)
              else (none, reg)
            | none => (some state_data, eraseAssoc state reg)
          else (none, reg)
        | _ => (none, reg)

/-- Registry operations for stating the capacity invariant. -/
inductive RegOp where
  | create (nonce : Str) (now : Nat) (add_new_account : Bool) (provider : Str)
  | validate (now : Nat) (state : Str)
  | validateAndConsume (now : Nat) (state : Str) (expected_provider : Option Str)
  | consume (state : Str)
  | cleanup (now : Nat)

/-- Apply one registry operation. -/
def applyRegOp (sig : Str → Str) : RegOp → StateRegistry → StateRegistry
  | .create nonce now anc provider, reg => (create_state sig nonce now anc provider reg).2
  | .validate now state, reg => (validate_state sig now state reg).2
  | .validateAndConsume now state exp, reg => (validate_and_consume sig now state exp reg).2
  | .consume state, reg => (consume_state state reg).2
  | .cleanup now, reg => cleanup_expired now reg

/-- Apply a sequence of registry operations. -/
def applyRegOps (sig : Str → Str) (ops : List RegOp) (reg : StateRegistry) :
    StateRegistry :=
  ops.foldl (fun r op => applyRegOp sig op r) reg

/-! ## OAuth code exchange (`backend/app/auth/oauth.py`,
`backend/app/auth/google_oauth.py`) -/

/-- `PKCEPair`. -/
structure PKCEPair where
  verifier : Str
  challenge : Str
deriving DecidableEq, Repr

/-- `AuthorizationFlow` (identical dataclass in both oauth modules). -/
structure AuthorizationFlow where
  pkce : PKCEPair
  state : Str
  created_at : Nat
  add_new_account : Bool
deriving DecidableEq, Repr

/-- `TokenData`. -/
structure TokenData where
  access_token : Str
  refresh_token : Str
  expires_at : Nat
deriving DecidableEq, Repr

/-- A decoded token-endpoint JSON body: each field is present or absent. -/
structure TokenResponseBody where
  access_token : Option Str
  refresh_token : Option Str
  expires_in : Option Nat
deriving DecidableEq, Repr

/-- Outcome of one `httpx` POST: a network error, or a response with a
status code and a body (`none` models a JSON parse failure). -/
inductive HttpOutcome where
  | netError
  | response (status : Nat) (body : Option TokenResponseBody)
deriving DecidableEq, Repr

/-- `OpenAIOAuth.FLOW_EXPIRATION_SECONDS` (same value in `GoogleOAuth`). -/
def FLOW_EXPIRATION_SECONDS : Nat := 600

/-- The provider identifier `GoogleOAuth.PROVIDER`. -/
def googleProvider : Str := "antigravity".toList

/-- `OpenAIOAuth.exchange_code`, projected onto its state/registry effects.
The single `self._pending_flow` slot, the registry and the HTTP outcome
are inputs; the `CredentialManager` write on success is modelled in the
credentials section and not threaded here.  The `try/finally` clears the
pending flow on every path that reaches the POST; `consume_state` is
invoked only at the very end of the success path. -/
def exchange_code (sig : Str → Str) (now : Nat) (code state : Str)
    (outcome : HttpOutcome) (pending_flow : Option AuthorizationFlow)
    (reg : StateRegistry) :
    Option TokenData × Option AuthorizationFlow × StateRegistry :=
  match validate_state sig now state reg with
  | (none, reg1) => (none, pending_flow, reg1)
  | (some _, reg1) =>
    match pending_flow with
    | none => (none, none, reg1)
    | some flow =>
      if flow.state ≠ state then (none, some flow, reg1)
      else if code.isEmpty || code.length < 10 then (none, some flow, reg1)
      else
        match outcome with
        | .netError => (none, none, reg1)
        | .response status body =>
          if status ≠ 200 then (none, none, reg1)
          else
            match body with
            | none => (none, none, reg1)
            | some data =>
              match data.access_token, data.refresh_token, data.expires_in with
              | some ac, some rt, some ei =>
                (some ⟨ac, rt, now + ei⟩, none, (consume_state state reg1).2)
              | _, _, _ => (none, none, reg1)

/-- `GoogleOAuth._cleanup_expired_flows_unsafe`. -/
def cleanup_expired_flows (now : Nat) (flows : List (Str × AuthorizationFlow)) :
    List (Str × AuthorizationFlow) :=
  flows.filter (fun kv => decide (now - kv.2.created_at ≤ FLOW_EXPIRATION_SECONDS))

/-- `GoogleOAuth.exchange_code`, projected onto its flow/registry effects.
It first atomically validates and consumes the state with
`expected_provider=self.PROVIDER`, then pops the pending flow, then runs
the POST; the credential write on success is modelled separately. -/
def google_exchange_code (sig : Str → Str) (now : Nat) (code state : Str)
    (outcome : HttpOutcome) (flows : List (Str × AuthorizationFlow))
    (reg : StateRegistry) :
    Option TokenData × List (Str × AuthorizationFlow) × StateRegistry :=
  match validate_and_consume sig now state (some googleProvider) reg with
  | (none, reg1) => (none, flows, reg1)
  | (some _, reg1) =>
    let flows1 := cleanup_expired_flows now flows
    match lookupAssoc state flows1 with
    | none => (none, flows1, reg1)
    | some _ =>
      let flows2 := eraseAssoc state flows1
      if code.isEmpty || code.length < 10 then (none, flows2, reg1)
      else
        match outcome with
        | .netError => (none, flows2, reg1)
        | .response status body =>
          if status ≠ 200 then (none, flows2, reg1)
          else
            match body with
            | none => (none, flows2, reg1)
            | some data =>
              match data.access_token with
              | none => (none, flows2, reg1)
              | some ac =>
                (some ⟨ac, data.refresh_token.getD [], now + data.expires_in.getD 3600⟩,
                  flows2, reg1)

/-! ## Sliding-window rate limiters (`backend/app/main.py`) -/

/-- `config.RATE_LIMIT_REQUESTS`. -/
def RATE_LIMIT_REQUESTS : Nat := 60

/-- `config.RATE_LIMIT_WINDOW` (seconds). -/
def RATE_LIMIT_WINDOW : Int := 60

/-- `config.AUTH_RATE_LIMIT_REQUESTS`. -/
def AUTH_RATE_LIMIT_REQUESTS : Nat := 15

/-- `config.AUTH_RATE_LIMIT_WINDOW` (seconds). -/
def AUTH_RATE_LIMIT_WINDOW : Int := 60

/-- The pruning step `[ts for ts in storage[ip] if ts > window_start]`
with `window_start = now - window`. -/
def pruneWindow (window : Int) (now : Int) (l : List Int) : List Int :=
  l.filter (fun ts => decide (now - window < ts))

/-- The shared body of `check_rate_limit` / `check_auth_rate_limit`,
restricted to one client identity: prune that client's timestamp list to
the trailing window; if the pruned count is already at or above the
limit, reject without recording; otherwise record `now` and accept.
(The `last_seen` bookkeeping only feeds the periodic cleanup.) -/
def rateAllow (limit : Nat) (window : Int) (now : Int) (l : List Int) :
    Bool × List Int :=
  let pruned := pruneWindow window now l
  if limit ≤ pruned.length then (false, pruned)
  else (true, pruned ++ [now])

/-- `check_rate_limit` from `main.py`, on one client's timestamp list. -/
def check_rate_limit (now : Int) (l : List Int) : Bool × List Int :=
  rateAllow RATE_LIMIT_REQUESTS RATE_LIMIT_WINDOW now l

/-- `check_auth_rate_limit` from `main.py`, on one client's timestamp list. -/
def check_auth_rate_limit (now : Int) (l : List Int) : Bool × List Int :=
  rateAllow AUTH_RATE_LIMIT_REQUESTS AUTH_RATE_LIMIT_WINDOW now l

/-- Run a sequence of calls from one client through a rate-limit check,
threading the timestamp list; returns the final list and the verdicts. -/
def processCalls (step : Int → List Int → Bool × List Int) (l : List Int) :
    List Int → List Int × List Bool
  | [] => (l, [])
  | t :: ts =>
    let r := step t l
    let rest := processCalls step r.2 ts
    (rest.1, r.1 :: rest.2)

/-! ## Credential store (`backend/app/auth/credentials.py`) -/

/-- `config.ACCOUNT_ID_LENGTH`. -/
def ACCOUNT_ID_LENGTH : Nat := 8

/-- A hex digit as Python `uuid` renders it (lowercase). -/
def hexDigitChar (n : Nat) : Char :=
  if n < 10 then Char.ofNat (48 + n) else Char.ofNat (87 + n)

/-- Two lowercase hex characters for one byte. -/
def byteToHex (b : Nat) : Str :=
  [hexDigitChar (b / 16 % 16), hexDigitChar (b % 16)]

/-- `str(uuid.uuid4())[:ACCOUNT_ID_LENGTH]`: the first 8 characters of the
canonical UUID string are the lowercase hex encoding of its first four
random bytes. -/
def uuidHex8 (bytes : List Nat) : Str :=
  ((bytes.take 4).map byteToHex).flatten

/-- Whether a character may appear in an account id (lowercase hex). -/
def isLowerHexDigit (c : Char) : Bool :=
  ("0123456789abcdef".toList).contains c

/-- One stored account: `{"provider": ..., "tokens": ..., "name": ...}`. -/
structure Account where
  provider : Str
  tokens : TokenData
  name : Str
deriving DecidableEq, Repr

/-- The decrypted `AccountDatabase`:
`{"accounts": {id: ...}, "active_account": id | None}`. -/
structure AccountDB where
  accounts : List (Str × Account)
  active_account : Option Str
deriving DecidableEq, Repr

/-- `{"accounts": {}, "active_account": None}`. -/
def emptyDB : AccountDB := ⟨[], none⟩

/-- The decoded JSON shapes `_load_all_data` distinguishes: a dict with an
`"accounts"` key, the legacy single-account shape with an `"openai"` key,
or a dict with neither. -/
inductive RawStoredData where
  | withAccounts (db : AccountDB)
  | legacyOpenAI (tokens : TokenData)
  | otherShape
deriving DecidableEq, Repr

/-- What reading and decrypting the credentials file yielded: no file, a
`cryptography.fernet.InvalidToken` decryption failure, a
`json.JSONDecodeError` parse failure, or decoded data. -/
inductive ReadResult where
  | missing
  | decryptFailure
  | parseFailure
  | ok (raw : RawStoredData)
deriving DecidableEq, Repr

/-- `CredentialManager._load_all_data`.  Total by construction — both
caught failure modes yield the empty database — so no exception reaches
the caller.  `uuidBytes` feeds the fresh migration id
`str(uuid.uuid4())[:8]`. -/
def load_all_data (uuidBytes : List Nat) (r : ReadResult) : AccountDB :=
  match r with
  | .missing => emptyDB
  | .decryptFailure => emptyDB
  | .parseFailure => emptyDB
  | .ok (.withAccounts db) => db
  | .ok (.legacyOpenAI toks) =>
    let account_id := uuidHex8 uuidBytes
    ⟨[(account_id, ⟨"openai".toList, toks, "Account 1".toList⟩)], some account_id⟩
  | .ok .otherShape => emptyDB

/-- `CredentialManager.create_account` as a pure load-mutate step: returns
the fresh id and the mutated database (persistence is modelled by
`create_account_persisted`). -/
def create_account (u : List Nat) (provider : Str) (tokens : TokenData)
    (name : Option Str) (db : AccountDB) : Str × AccountDB :=
  let account_id := uuidHex8 u
  let account_num := db.accounts.length + 1
  let acc : Account :=
    ⟨provider, tokens, name.getD ("Account ".toList ++ natToStr account_num)⟩
  let accounts := insertAssoc account_id acc db.accounts
  let active :=
    match db.active_account with
    | none => some account_id
    | some a => some a
  (account_id, ⟨accounts, active⟩)

/-- `create_account` with the `_save_all_data` outcome made explicit: the
disk keeps the old database when the encrypted write fails, but the
returned id is computed before the save and the save result is discarded. -/
def create_account_persisted (u : List Nat) (provider : Str)
    (tokens : TokenData) (name : Option Str) (disk : AccountDB)
    (save_ok : Bool) : Str × AccountDB :=
  let r := create_account u provider tokens name disk
  (r.1, if save_ok then r.2 else disk)

/-- `CredentialManager.set_active_account`. -/
def set_active_account (account_id : Str) (db : AccountDB) : Bool × AccountDB :=
  if containsKey account_id db.accounts then
    (true, ⟨db.accounts, some account_id⟩)
  else (false, db)

/-- `CredentialManager.update_account_name`. -/
def update_account_name (account_id : Str) (name : Str) (db : AccountDB) :
    Bool × AccountDB :=
  if containsKey account_id db.accounts then
    (true, ⟨db.accounts.map (fun kv =>
      if kv.1 = account_id then (kv.1, { kv.2 with name := name }) else kv),
      db.active_account⟩)
  else (false, db)

/-- `CredentialManager.update_account_tokens`. -/
def update_account_tokens (account_id : Str) (tokens : TokenData)
    (db : AccountDB) : Bool × AccountDB :=
  if containsKey account_id db.accounts then
    (true, ⟨db.accounts.map (fun kv =>
      if kv.1 = account_id then (kv.1, { kv.2 with tokens := tokens }) else kv),
      db.active_account⟩)
  else (false, db)

/-- `CredentialManager.delete_account`: on deleting the active account the
first remaining account (`next(iter(...), None)`) becomes active. -/
def delete_account (account_id : Str) (db : AccountDB) : Bool × AccountDB :=
  if containsKey account_id db.accounts then
    let accounts := eraseAssoc account_id db.accounts
    let active :=
      if db.active_account = some account_id then accounts.head?.map Prod.fst
      else db.active_account
    (true, ⟨accounts, active⟩)
  else (false, db)

/-- `CredentialManager.get_active_account`: the active account if it
belongs to the provider, else the first account of the provider
(`if active_id` also rejects a falsy empty-string id). -/
def get_active_account (provider : Str) (db : AccountDB) :
    Option (Str × Account) :=
  let fallback := db.accounts.find? (fun kv => decide (kv.2.provider = provider))
  match db.active_account with
  | some active_id =>
    if active_id.isEmpty then fallback
    else
      match lookupAssoc active_id db.accounts with
      | some acc =>
        if acc.provider = provider then some (active_id, acc) else fallback
      | none => fallback
  | none => fallback

/-- `CredentialManager.save_tokens` (legacy). -/
def save_tokens (u : List Nat) (provider : Str) (tokens : TokenData)
    (db : AccountDB) : Bool × AccountDB :=
  match get_active_account provider db with
  | some (account_id, _) => update_account_tokens account_id tokens db
  | none => (true, (create_account u provider tokens none db).2)

/-- `CredentialManager.delete_tokens` (legacy): delete the active account
for the provider; returns `True` when there is none. -/
def delete_tokens (provider : Str) (db : AccountDB) : Bool × AccountDB :=
  match get_active_account provider db with
  | some (account_id, _) => delete_account account_id db
  | none => (true, db)

/-- `CredentialManager.has_tokens` (legacy). -/
def has_tokens (provider : Str) (db : AccountDB) : Bool :=
  (get_active_account provider db).isSome

/-- `OpenAIOAuth.logout`: `CredentialManager.delete_tokens("openai")`. -/
def logout_openai (db : AccountDB) : Bool × AccountDB :=
  delete_tokens ("openai".toList) db

/-- The mutating credential-store operations, for stating the
`active_account` invariant. -/
inductive CredOp where
  | createAcc (u : List Nat) (provider : Str) (tokens : TokenData) (name : Option Str)
  | setActive (account_id : Str)
  | rename (account_id : Str) (name : Str)
  | updateTok (account_id : Str) (tokens : TokenData)
  | deleteAcc (account_id : Str)
  | legacySave (u : List Nat) (provider : Str) (tokens : TokenData)
  | legacyDelete (provider : Str)

/-- Apply one credential-store operation (the load-mutate-save cycle with
a successful save). -/
def applyCredOp : CredOp → AccountDB → AccountDB
  | .createAcc u provider tokens name, db => (create_account u provider tokens name db).2
  | .setActive account_id, db => (set_active_account account_id db).2
  | .rename account_id name, db => (update_account_name account_id name db).2
  | .updateTok account_id tokens, db => (update_account_tokens account_id tokens db).2
  | .deleteAcc account_id, db => (delete_account account_id db).2
  | .legacySave u provider tokens, db => (save_tokens u provider tokens db).2
  | .legacyDelete provider, db => (delete_tokens provider db).2

/-- Apply a sequence of credential-store operations. -/
def applyCredOps (ops : List CredOp) (db : AccountDB) : AccountDB :=
  ops.foldl (fun d op => applyCredOp op d) db

/-- The `active_account` invariant: if set, it keys an existing account. -/
def ActiveWF (db : AccountDB) : Prop :=
  ∀ a, db.active_account = some a → containsKey a db.accounts = true

/-! ## Limits cache coordinator (`backend/app/main.py`,
`_run_update_all_limits`) -/

/-- One provider's contribution to a refresh round: its
`is_authenticated()` answer and the outcome of `await provider.get_limits()`
(`Except.error` models a raised exception).  The `UsageLimits` payload is
never inspected by the coordinator, so it stays a type parameter. -/
structure ProviderRound (α : Type) where
  is_authenticated : Bool
  fetch : Except Unit α

/-- The collection loop of `_run_update_all_limits`: results are gathered
into a local `new_limits` dict; a provider that is not authenticated or
whose fetch raises contributes nothing. -/
def collectNewLimits {α : Type} (providers : List (Str × ProviderRound α)) :
    List (Str × α) :=
  providers.foldl (fun acc np =>
    if np.2.is_authenticated then
      match np.2.fetch with
      | .ok l => insertAssoc np.1 l acc
      | .error _ => acc
    else acc) []

/-- The merge step of `_run_update_all_limits`: each collected entry
overwrites its cache slot under the lock; nothing else is touched. -/
def mergeLimits {α : Type} (cache news : List (Str × α)) : List (Str × α) :=
  news.foldl (fun c nl => insertAssoc nl.1 nl.2 c) cache

/-- `_run_update_all_limits`, as its effect on the shared cache. -/
def run_update_all_limits {α : Type} (providers : List (Str × ProviderRound α))
    (cache : List (Str × α)) : List (Str × α) :=
  mergeLimits cache (collectNewLimits providers)

/-! ## Token refresh (`backend/app/auth/oauth.py`, `refresh_tokens`) -/

/-- A Python exception escaping the modelled code. -/
inductive PyError where
  | keyError (key : Str)
deriving DecidableEq, Repr

/-- The observable outcome of `OpenAIOAuth.refresh_tokens`: the returned
value or an uncaught exception, the sleeps performed between attempts
(`await asyncio.sleep(1 * (attempt + 1))`), and the token set passed to
`CredentialManager.save_tokens`. -/
structure RefreshResult where
  outcome : Except PyError (Option TokenData)
  sleeps : List Nat
  saved : Option TokenData
deriving Repr

/-- The code after the retry loop of `refresh_tokens`: parse the JSON
(failures caught, returning `None`), then build `TokenData` by direct
`data[...]` indexing — a missing key raises `KeyError` — and persist. -/
def refreshAfterLoop (now : Nat) (body : Option TokenResponseBody)
    (sleeps : List Nat) : RefreshResult :=
  match body with
  | none => ⟨.ok none, sleeps, none⟩
  | some data =>
    match data.access_token with
    | none => ⟨.error (.keyError "access_token".toList), sleeps, none⟩
    | some ac =>
      match data.refresh_token with
      | none => ⟨.error (.keyError "refresh_token".toList), sleeps, none⟩
      | some rt =>
        match data.expires_in with
        | none => ⟨.error (.keyError "expires_in".toList), sleeps, none⟩
        | some ei =>
          let tokens : TokenData := ⟨ac, rt, now + ei⟩
          ⟨.ok (some tokens), sleeps, some tokens⟩

/-- The `for attempt in range(max_retries)` loop of `refresh_tokens` with
`max_retries = 3`: retry with a `1 * (attempt + 1)` second sleep on a
network error or a 5xx status while attempts remain, return `None` on any
other non-200 status, break to the post-loop code on 200.  `fuel` is the
number of loop iterations left (the loop always exits by `return` or
`break`, so the fuel-exhausted base case is unreachable from
`refresh_tokens`). -/
def refreshAttempts (now : Nat) (responses : Nat → HttpOutcome) :
    Nat → Nat → List Nat → RefreshResult
  | 0, _, sleeps => ⟨.ok none, sleeps, none⟩
  | fuel + 1, attempt, sleeps =>
    match responses attempt with
    | .netError =>
      if attempt < 2 then
        refreshAttempts now responses fuel (attempt + 1) (sleeps ++ [1 * (attempt + 1)])
      else ⟨.ok none, sleeps, none⟩
    | .response status body =>
      if status = 200 then refreshAfterLoop now body sleeps
      else if 500 ≤ status ∧ attempt < 2 then
        refreshAttempts now responses fuel (attempt + 1) (sleeps ++ [1 * (attempt + 1)])
      else ⟨.ok none, sleeps, none⟩

/-- `OpenAIOAuth.refresh_tokens`.  `stored` is
`CredentialManager.get_tokens("openai")` with its `refresh_token` field
(`none` in the outer `Option` models no stored dict, `some none` a dict
without a `"refresh_token"` key); `responses` gives the outcome of the
POST on each attempt. -/
def refresh_tokens (now : Nat) (stored : Option (Option Str))
    (responses : Nat → HttpOutcome) : RefreshResult :=
  match stored with
  | none => ⟨.ok none, [], none⟩
  | some none => ⟨.ok none, [], none⟩
  | some (some _) => refreshAttempts now responses 3 0 []

/-- The token returned by `create_state`. -/
def createdToken (sig : Str → Str) (nonce : Str) (now : Nat) (anc : Bool)
    (provider : Str) (reg : StateRegistry) : Str :=
  (create_state sig nonce now anc provider reg).1

/-- The registry after `create_state`. -/
def createdReg (sig : Str → Str) (nonce : Str) (now : Nat) (anc : Bool)
    (provider : Str) (reg : StateRegistry) : StateRegistry :=
  (create_state sig nonce now anc provider reg).2

/-- A deterministic signing function used for concrete evaluations; its
output is a decimal numeral, hence never contains a colon. -/
def demoSig (m : Str) : Str := natToStr m.length

/-- The invariant carried through every registry operation. -/
def RegInv (reg : StateRegistry) : Prop :=
  nodupKeys reg ∧ reg.length ≤ MAX_PENDING_STATES

/-- A full registry (100 distinct keys, pairwise distinct ages) for
evaluating the eviction path concretely. -/
def bigReg : StateRegistry :=
  (List.range 100).map
    (fun i => (natToStr i, ⟨natToStr i, i, false, natToStr i, []⟩))

/-- The per-round collection function: what one provider contributes. -/
def roundEntry {α : Type} (np : Str × ProviderRound α) : Option (Str × α) :=
  if np.2.is_authenticated then
    match np.2.fetch with
    | .ok l => some (np.1, l)
    | .error _ => none
  else none

/-! ## Helper lemmas: association lists -/

section AssocLemmas

variable {α : Type}

theorem lookupAssoc_cons (k : Str) (kv : Str × α) (l : List (Str × α)) :
    lookupAssoc k (kv :: l) = if kv.1 = k then some kv.2 else lookupAssoc k l := rfl

theorem lookupAssoc_append_of_none (k : Str) (l l' : List (Str × α))
    (h : lookupAssoc k l = none) :
    lookupAssoc k (l ++ l') = lookupAssoc k l' := by
  induction l with
  | nil => rfl
  | cons kv rest ih =>
    rw [lookupAssoc_cons] at h
    by_cases hk : kv.1 = k
    · simp [hk] at h
    · rw [List.cons_append, lookupAssoc_cons, if_neg hk]
      exact ih (by rwa [if_neg hk] at h)

theorem lookupAssoc_insertAssoc_self (k : Str) (v : α) (l : List (Str × α)) :
    lookupAssoc k (insertAssoc k v l) = some v := by
  unfold insertAssoc containsKey
  by_cases h : lookupAssoc k l = none
  · rw [h]
    simp only [Option.isSome_none, Bool.false_eq_true, if_false]
    rw [lookupAssoc_append_of_none k l _ h, lookupAssoc_cons]
    simp
  · have hs : (lookupAssoc k l).isSome = true := by
      cases hv : lookupAssoc k l with
      | none => exact absurd hv h
      | some v' => rfl
    rw [hs]
    simp only [if_true]
    induction l with
    | nil => simp [lookupAssoc] at h
    | cons kv rest ih =>
      by_cases hk : kv.1 = k
      · simp [lookupAssoc, hk]
      · rw [lookupAssoc_cons, if_neg hk] at h hs
        simpa [lookupAssoc, hk] using ih h hs

theorem lookupAssoc_eraseAssoc_self (k : Str) (l : List (Str × α)) :
    lookupAssoc k (eraseAssoc k l) = none := by
  induction l with
  | nil => rfl
  | cons kv rest ih =>
    unfold eraseAssoc at ih ⊢
    by_cases hk : kv.1 = k
    · simpa [List.filter, hk] using ih
    · simpa [List.filter, hk, lookupAssoc_cons] using ih

theorem lookupAssoc_eraseAssoc_ne (k k' : Str) (l : List (Str × α))
    (h : k ≠ k') :
    lookupAssoc k (eraseAssoc k' l) = lookupAssoc k l := by
  induction l with
  | nil => rfl
  | cons kv rest ih =>
    unfold eraseAssoc at ih ⊢
    rw [List.filter_cons]
    by_cases hk : kv.1 = k'
    · have hp : decide (kv.1 ≠ k') = false := by simp [hk]
      rw [hp]
      simp only [Bool.false_eq_true, if_false]
      rw [ih, lookupAssoc_cons, if_neg (fun he => h (he.symm.trans hk))]
    · have hp : decide (kv.1 ≠ k') = true := by simp [hk]
      rw [hp]
      simp only [if_true]
      rw [lookupAssoc_cons, lookupAssoc_cons]
      by_cases hk2 : kv.1 = k
      · rw [if_pos hk2, if_pos hk2]
      · rw [if_neg hk2, if_neg hk2]
        exact ih

theorem containsKey_eraseAssoc_self (k : Str) (l : List (Str × α)) :
    containsKey k (eraseAssoc k l) = false := by
  unfold containsKey
  rw [lookupAssoc_eraseAssoc_self]
  rfl

theorem containsKey_of_lookupAssoc (k : Str) (v : α) (l : List (Str × α))
    (h : lookupAssoc k l = some v) : containsKey k l = true := by
  unfold containsKey
  rw [h]
  rfl

theorem lookupAssoc_eq_none_iff (k : Str) (l : List (Str × α)) :
    lookupAssoc k l = none ↔ k ∉ assocKeys l := by
  induction l with
  | nil => simp [lookupAssoc, assocKeys]
  | cons kv rest ih =>
    rw [lookupAssoc_cons]
    by_cases hk : kv.1 = k
    · rw [if_pos hk]
      refine ⟨fun hcontra => absurd hcontra (Option.some_ne_none kv.2),
        fun hni => absurd ?_ hni⟩
      unfold assocKeys
      rw [List.map_cons]
      exact hk ▸ List.mem_cons_self kv.1 _
    · simp only [if_neg hk, assocKeys, List.map_cons, List.mem_cons]
      rw [ih]
      unfold assocKeys
      constructor
      · rintro hni (h1 | h2)
        · exact hk h1.symm
        · exact hni h2
      · intro hni
        exact fun h2 => hni (Or.inr h2)

theorem lookupAssoc_isSome_iff (k : Str) (l : List (Str × α)) :
    (lookupAssoc k l).isSome = true ↔ k ∈ assocKeys l := by
  rw [← Decidable.not_iff_not, ← lookupAssoc_eq_none_iff]
  cases lookupAssoc k l <;> simp

theorem lookupAssoc_of_mem_nodup (k : Str) (v : α) (l : List (Str × α))
    (hm : (k, v) ∈ l) (hnd : nodupKeys l) : lookupAssoc k l = some v := by
  induction l with
  | nil => simp at hm
  | cons kv rest ih =>
    unfold nodupKeys assocKeys at hnd
    rw [List.map_cons, List.nodup_cons] at hnd
    rcases List.mem_cons.mp hm with h1 | h2
    · rw [← h1, lookupAssoc_cons, if_pos rfl]
    · have hk : kv.1 ≠ k := by
        intro he
        exact hnd.1 (he ▸ (List.mem_map.mpr ⟨(k, v), h2, rfl⟩))
      rw [lookupAssoc_cons, if_neg hk]
      exact ih h2 hnd.2

theorem assocKeys_filter_sublist (p : Str × α → Bool) (l : List (Str × α)) :
    (assocKeys (l.filter p)).Sublist (assocKeys l) :=
  (List.filter_sublist l).map Prod.fst

theorem nodupKeys_filter (p : Str × α → Bool) (l : List (Str × α))
    (h : nodupKeys l) : nodupKeys (l.filter p) :=
  (assocKeys_filter_sublist p l).nodup h

theorem assocKeys_replace (k : Str) (v : α) (l : List (Str × α)) :
    assocKeys (l.map (fun kv => if kv.1 = k then (k, v) else kv)) = assocKeys l := by
  unfold assocKeys
  rw [List.map_map]
  apply List.map_congr_left
  intro kv _
  by_cases hk : kv.1 = k
  · simp [hk]
  · simp [hk]

theorem nodupKeys_insertAssoc (k : Str) (v : α) (l : List (Str × α))
    (h : nodupKeys l) : nodupKeys (insertAssoc k v l) := by
  unfold insertAssoc
  by_cases hc : containsKey k l = true
  · rw [if_pos hc]
    unfold nodupKeys
    rw [assocKeys_replace]
    exact h
  · rw [if_neg hc]
    unfold nodupKeys assocKeys
    rw [List.map_append]
    simp only [List.map_cons, List.map_nil]
    rw [List.nodup_append]
    refine ⟨h, List.nodup_singleton k, ?_⟩
    intro a ha
    simp only [List.mem_singleton]
    intro he
    apply hc
    rw [he] at ha
    unfold containsKey
    rw [lookupAssoc_isSome_iff]
    exact ha

theorem length_insertAssoc_le (k : Str) (v : α) (l : List (Str × α)) :
    (insertAssoc k v l).length ≤ l.length + 1 := by
  unfold insertAssoc
  by_cases hc : containsKey k l = true
  · rw [if_pos hc, List.length_map]
    omega
  · rw [if_neg hc, List.length_append, List.length_cons, List.length_nil]

end AssocLemmas

/-! ## Helper lemmas: `splitOnColon` -/

theorem splitOnColon_no_colon (s : Str) (h : ':' ∉ s) : splitOnColon s = [s] := by
  induction s with
  | nil => rfl
  | cons c rest ih =>
    have hc : ¬ c = ':' := fun he => h (he ▸ List.mem_cons_self c rest)
    unfold splitOnColon
    rw [if_neg hc, ih (fun hm => h (List.mem_cons_of_mem c hm))]
    rfl

theorem splitOnColon_append (a b : Str) (h : ':' ∉ a) :
    splitOnColon (a ++ ':' :: b) = a :: splitOnColon b := by
  induction a with
  | nil => simp [splitOnColon]
  | cons c rest ih =>
    have hc : ¬ c = ':' := fun he => h (he ▸ List.mem_cons_self c rest)
    rw [List.cons_append]
    simp only [splitOnColon]
    rw [if_neg hc, ih (fun hm => h (List.mem_cons_of_mem c hm))]
    rfl

theorem splitOnColon_token (a b : Str) (ha : ':' ∉ a) (hb : ':' ∉ b) :
    splitOnColon (a ++ ':' :: b) = [a, b] := by
  rw [splitOnColon_append a b ha, splitOnColon_no_colon b hb]

/-! ## Helper lemmas: state tokens -/

theorem stateToken_isEmpty (a b : Str) : (a ++ ':' :: b).isEmpty = false := by
  cases a <;> rfl

theorem stateToken_contains (a b : Str) : (a ++ ':' :: b).contains ':' = true :=
  List.elem_eq_true_of_mem (List.mem_append_right a (List.mem_cons_self _ _))

theorem createdToken_eq (sig : Str → Str) (nonce : Str) (now : Nat) (anc : Bool)
    (provider : Str) (reg : StateRegistry) :
    createdToken sig nonce now anc provider reg =
      nonce ++ ':' :: sig (stateMessage nonce now) := rfl

theorem lookupAssoc_createdReg (sig : Str → Str) (nonce : Str) (now : Nat)
    (anc : Bool) (provider : Str) (reg : StateRegistry) :
    lookupAssoc (createdToken sig nonce now anc provider reg)
        (createdReg sig nonce now anc provider reg) =
      some ⟨createdToken sig nonce now anc provider reg, now, anc, nonce, provider⟩ := by
  unfold createdToken createdReg create_state
  exact lookupAssoc_insertAssoc_self _ _ _

/-- Computation of `validate_and_consume` on a token present in the
registry, unexpired and carrying a matching signature: everything reduces
to the provider check. -/
theorem validate_and_consume_hit (sig : Str → Str) (now : Nat) (nonce sigv : Str)
    (data : StateData) (reg : StateRegistry) (exp : Option Str)
    (hn : ':' ∉ nonce) (hs : ':' ∉ sigv)
    (hl : lookupAssoc (nonce ++ ':' :: sigv) reg = some data)
    (hfresh : now - data.created_at ≤ OAUTH_STATE_EXPIRATION)
    (hsig : sigv = sig (stateMessage nonce data.created_at)) :
    validate_and_consume sig now (nonce ++ ':' :: sigv) exp reg =
      match exp with
      | some p =>
        if data.provider = p then
          (some data, eraseAssoc (nonce ++ ':' :: sigv) reg)
        else (none, reg)
      | none => (some data, eraseAssoc (nonce ++ ':' :: sigv) reg) := by
  unfold validate_and_consume
  rw [stateToken_isEmpty, stateToken_contains]
  simp only [Bool.not_true, Bool.or_false, Bool.false_eq_true, if_false]
  rw [hl]
  simp only
  rw [if_neg (by omega), splitOnColon_token nonce sigv hn hs]
  simp only
  rw [if_pos hsig]

/-- The same computation for the non-consuming `validate_state`. -/
theorem validate_state_hit (sig : Str → Str) (now : Nat) (nonce sigv : Str)
    (data : StateData) (reg : StateRegistry)
    (hn : ':' ∉ nonce) (hs : ':' ∉ sigv)
    (hl : lookupAssoc (nonce ++ ':' :: sigv) reg = some data)
    (hfresh : now - data.created_at ≤ OAUTH_STATE_EXPIRATION)
    (hsig : sigv = sig (stateMessage nonce data.created_at)) :
    validate_state sig now (nonce ++ ':' :: sigv) reg = (some data, reg) := by
  unfold validate_state
  rw [stateToken_isEmpty, stateToken_contains]
  simp only [Bool.not_true, Bool.or_false, Bool.false_eq_true, if_false]
  rw [hl]
  simp only
  rw [if_neg (by omega), splitOnColon_token nonce sigv hn hs]
  simp only
  rw [if_pos hsig]

/-- `validate_and_consume` on a token absent from the registry. -/
theorem validate_and_consume_unknown (sig : Str → Str) (now : Nat) (state : Str)
    (exp : Option Str) (reg : StateRegistry)
    (hl : lookupAssoc state reg = none) :
    validate_and_consume sig now state exp reg = (none, reg) := by
  unfold validate_and_consume
  by_cases hfmt : (state.isEmpty || !(state.contains ':')) = true
  · rw [if_pos hfmt]
  · rw [if_neg hfmt, hl]

/-- `validate_and_consume` on an expired entry removes it. -/
theorem validate_and_consume_expired (sig : Str → Str) (now : Nat) (state : Str)
    (exp : Option Str) (reg : StateRegistry) (sd : StateData)
    (hfmt : state.contains ':' = true)
    (hl : lookupAssoc state reg = some sd)
    (hexp : OAUTH_STATE_EXPIRATION < now - sd.created_at) :
    validate_and_consume sig now state exp reg = (none, eraseAssoc state reg) := by
  have hne : state.isEmpty = false := by
    cases state with
    | nil => simp [List.contains] at hfmt
    | cons c rest => rfl
  unfold validate_and_consume
  rw [hne, hfmt]
  simp only [Bool.not_true, Bool.or_false, Bool.false_eq_true, if_false]
  rw [hl]
  simp only
  rw [if_pos hexp]

/-- `validate_and_consume` on a bad signature leaves the registry alone. -/
theorem validate_and_consume_badsig (sig : Str → Str) (now : Nat) (state : Str)
    (exp : Option Str) (reg : StateRegistry) (sd : StateData) (n2 s2 : Str)
    (hfmt : state.contains ':' = true)
    (hl : lookupAssoc state reg = some sd)
    (hfresh : now - sd.created_at ≤ OAUTH_STATE_EXPIRATION)
    (hsplit : splitOnColon state = [n2, s2])
    (hbad : s2 ≠ sig (stateMessage n2 sd.created_at)) :
    validate_and_consume sig now state exp reg = (none, reg) := by
  have hne : state.isEmpty = false := by
    cases state with
    | nil => simp [List.contains] at hfmt
    | cons c rest => rfl
  unfold validate_and_consume
  rw [hne, hfmt]
  simp only [Bool.not_true, Bool.or_false, Bool.false_eq_true, if_false]
  rw [hl]
  simp only
  rw [if_neg (by omega), hsplit]
  simp only
  rw [if_neg hbad]

/-- The registry effect of `GoogleOAuth.exchange_code` once the state has
validated: whatever the flow table, the code or the network outcome, the
registry is exactly the one left by `validate_and_consume`. -/
theorem google_exchange_registry (sig : Str → Str) (now : Nat)
    (code state : Str) (outcome : HttpOutcome)
    (flows : List (Str × AuthorizationFlow)) (reg : StateRegistry)
    (sd : StateData)
    (h : validate_and_consume sig now state (some googleProvider) reg =
      (some sd, eraseAssoc state reg)) :
    (google_exchange_code sig now code state outcome flows reg).2.2 =
      eraseAssoc state reg := by
  simp only [google_exchange_code, h]
  repeat' split
  all_goals rfl

theorem code_ok_of_len (code : Str) (hc : 10 ≤ code.length) :
    (code.isEmpty || decide (code.length < 10)) = false := by
  have h1 : code.isEmpty = false := by
    cases code with
    | nil => simp at hc
    | cons c r => rfl
  rw [h1]
  simp only [Bool.false_or, decide_eq_false_iff_not]
  omega

/-- C1, counterexample to the claim as stated.  The claim asserts that the
pending state record is removed exactly once whether the ensuing code
exchange succeeds or fails; but in `OpenAIOAuth.exchange_code`
(`oauth.py`), `consume_state` is only reached at the end of the success
path, so after a failed exchange (here: the token endpoint answers 500 to
a callback carrying a freshly created state and a matching pending flow)
the state record is still in the registry — it was removed zero times. -/
theorem claim_C1_counterexample :
    containsKey (createdToken demoSig (['n']) 0 false googleProvider [])
      (exchange_code demoSig 0 ("abcdefghij".toList)
        (createdToken demoSig (['n']) 0 false googleProvider [])
        (.response 500 none)
        (some ⟨⟨[], []⟩, createdToken demoSig (['n']) 0 false googleProvider [], 0, false⟩)
        (createdReg demoSig (['n']) 0 false googleProvider [])).2.2 = true := by
  decide

/-- C1 (amended): for every state token returned by `create_state`, an
immediately following `validate_and_consume` succeeds, consuming the
record, and a second call with the same token returns `none`; the Google
exchange path (`google_oauth.py`), which validates and consumes up front,
removes the pending state record exactly once whatever the flow table,
the code or the network outcome; the OpenAI exchange path (`oauth.py`)
removes it on a successful exchange but leaves it in the registry when
the exchange fails (e.g. a non-200 token response). -/
theorem claim_C1_state_consumed (sig : Str → Str) (nonce : Str) (now : Nat)
    (anc : Bool) (reg : StateRegistry) (code : Str) (outcome : HttpOutcome)
    (flows : List (Str × AuthorizationFlow)) (pk : PKCEPair) (t : Nat) (b : Bool)
    (status : Nat) (body : Option TokenResponseBody) (ac rt : Str) (ei : Nat)
    (hn : ':' ∉ nonce) (hs : ':' ∉ sig (stateMessage nonce now))
    (hcode : 10 ≤ code.length) (hstatus : status ≠ 200) :
    validate_and_consume sig now (createdToken sig nonce now anc googleProvider reg)
        none (createdReg sig nonce now anc googleProvider reg) =
      (some ⟨createdToken sig nonce now anc googleProvider reg, now, anc, nonce,
          googleProvider⟩,
        eraseAssoc (createdToken sig nonce now anc googleProvider reg)
          (createdReg sig nonce now anc googleProvider reg))
    ∧ (validate_and_consume sig now (createdToken sig nonce now anc googleProvider reg)
        none
        (eraseAssoc (createdToken sig nonce now anc googleProvider reg)
          (createdReg sig nonce now anc googleProvider reg))).1 = none
    ∧ (google_exchange_code sig now code
        (createdToken sig nonce now anc googleProvider reg) outcome flows
        (createdReg sig nonce now anc googleProvider reg)).2.2 =
      eraseAssoc (createdToken sig nonce now anc googleProvider reg)
        (createdReg sig nonce now anc googleProvider reg)
    ∧ containsKey (createdToken sig nonce now anc googleProvider reg)
        (google_exchange_code sig now code
          (createdToken sig nonce now anc googleProvider reg) outcome flows
          (createdReg sig nonce now anc googleProvider reg)).2.2 = false
    ∧ containsKey (createdToken sig nonce now anc googleProvider reg)
        (exchange_code sig now code (createdToken sig nonce now anc googleProvider reg)
          (.response 200 (some ⟨some ac, some rt, some ei⟩))
          (some ⟨pk, createdToken sig nonce now anc googleProvider reg, t, b⟩)
          (createdReg sig nonce now anc googleProvider reg)).2.2 = false
    ∧ containsKey (createdToken sig nonce now anc googleProvider reg)
        (exchange_code sig now code (createdToken sig nonce now anc googleProvider reg)
          (.response status body)
          (some ⟨pk, createdToken sig nonce now anc googleProvider reg, t, b⟩)
          (createdReg sig nonce now anc googleProvider reg)).2.2 = true := by
  have htok := createdToken_eq sig nonce now anc googleProvider reg
  have hl := lookupAssoc_createdReg sig nonce now anc googleProvider reg
  have hfresh : now -
      (StateData.mk (createdToken sig nonce now anc googleProvider reg) now anc
        nonce googleProvider).created_at ≤ OAUTH_STATE_EXPIRATION := by
    simp [Nat.sub_self, OAUTH_STATE_EXPIRATION]
  have hhit := validate_and_consume_hit sig now nonce
    (sig (stateMessage nonce now))
    ⟨createdToken sig nonce now anc googleProvider reg, now, anc, nonce, googleProvider⟩
    (createdReg sig nonce now anc googleProvider reg) none hn hs
    (htok ▸ hl) hfresh rfl
  have hhitp := validate_and_consume_hit sig now nonce
    (sig (stateMessage nonce now))
    ⟨createdToken sig nonce now anc googleProvider reg, now, anc, nonce, googleProvider⟩
    (createdReg sig nonce now anc googleProvider reg) (some googleProvider) hn hs
    (htok ▸ hl) hfresh rfl
  simp only [if_pos rfl] at hhitp
  have hvs := validate_state_hit sig now nonce (sig (stateMessage nonce now))
    ⟨createdToken sig nonce now anc googleProvider reg, now, anc, nonce, googleProvider⟩
    (createdReg sig nonce now anc googleProvider reg) hn hs
    (htok ▸ hl) hfresh rfl
  refine ⟨?_, ?_, ?_, ?_, ?_, ?_⟩
  · rw [htok]
    exact hhit
  · rw [htok]
    rw [validate_and_consume_unknown sig now _ none _
      (lookupAssoc_eraseAssoc_self _ _)]
  · exact google_exchange_registry sig now code _ outcome flows _ _ (htok ▸ hhitp)
  · rw [google_exchange_registry sig now code _ outcome flows _ _ (htok ▸ hhitp)]
    exact containsKey_eraseAssoc_self _ _
  · rw [htok]
    simp only [exchange_code, htok ▸ hvs]
    rw [if_neg (by simp), code_ok_of_len code hcode]
    simp only [Bool.false_eq_true, if_false]
    rw [if_neg (by simp)]
    simp only [consume_state,
      containsKey_of_lookupAssoc _ _ _ (htok ▸ hl), if_true]
    exact containsKey_eraseAssoc_self _ _
  · rw [htok]
    simp only [exchange_code, htok ▸ hvs]
    rw [if_neg (by simp), code_ok_of_len code hcode]
    simp only [Bool.false_eq_true, if_false]
    rw [if_pos hstatus]
    exact containsKey_of_lookupAssoc _ _ _ (htok ▸ hl)

/-- Witness for C1 at concrete inputs. -/
theorem claim_C1_state_consumed_witness :
    (':' ∉ (['n'] : Str) ∧ ':' ∉ demoSig (stateMessage (['n']) 0) ∧
      10 ≤ ("abcdefghij".toList).length ∧ (500 : Nat) ≠ 200) ∧
    containsKey (createdToken demoSig (['n']) 0 false googleProvider [])
      (exchange_code demoSig 0 ("abcdefghij".toList)
        (createdToken demoSig (['n']) 0 false googleProvider [])
        (.response 200 (some ⟨some (['a']), some (['r']), some 60⟩))
        (some ⟨⟨[], []⟩, createdToken demoSig (['n']) 0 false googleProvider [], 0, false⟩)
        (createdReg demoSig (['n']) 0 false googleProvider [])).2.2 = false :=
  ⟨⟨by decide, by decide, by decide, by decide⟩,
    (claim_C1_state_consumed demoSig (['n']) 0 false [] ("abcdefghij".toList)
      .netError [] ⟨[], []⟩ 0 false 500 none (['a']) (['r']) 60
      (by decide) (by decide) (by decide) (by decide)).2.2.2.2.1⟩

/-- C2: a state token created for provider `p1` is refused (with no side
effect) when validated-and-consumed with a different expected provider
`p2`; and the checks happen in the spec order — a token failing the
format check is refused before the registry is consulted, an unknown
token is refused with no side effect, an expired entry is removed
regardless of its signature or provider, a wrong signature is refused
with no side effect before any provider comparison, and when no expected
provider is given a valid token succeeds with no provider check. -/
theorem claim_C2_provider_mismatch (sig : Str → Str) (nonce p1 p2 : Str)
    (now : Nat) (anc : Bool) (reg : StateRegistry)
    (hn : ':' ∉ nonce) (hs : ':' ∉ sig (stateMessage nonce now)) (hp : p1 ≠ p2) :
    validate_and_consume sig now (createdToken sig nonce now anc p1 reg) (some p2)
        (createdReg sig nonce now anc p1 reg) =
      (none, createdReg sig nonce now anc p1 reg)
    ∧ (∀ (t : Str) (r : StateRegistry) (exp : Option Str),
        t.contains ':' = false → validate_and_consume sig now t exp r = (none, r))
    ∧ (∀ (t : Str) (r : StateRegistry) (exp : Option Str),
        lookupAssoc t r = none → validate_and_consume sig now t exp r = (none, r))
    ∧ (∀ (t : Str) (r : StateRegistry) (exp : Option Str) (sd : StateData),
        t.contains ':' = true → lookupAssoc t r = some sd →
        OAUTH_STATE_EXPIRATION < now - sd.created_at →
        validate_and_consume sig now t exp r = (none, eraseAssoc t r))
    ∧ (∀ (t : Str) (r : StateRegistry) (exp : Option Str) (sd : StateData)
        (n2 s2 : Str),
        t.contains ':' = true → lookupAssoc t r = some sd →
        now - sd.created_at ≤ OAUTH_STATE_EXPIRATION →
        splitOnColon t = [n2, s2] → s2 ≠ sig (stateMessage n2 sd.created_at) →
        validate_and_consume sig now t exp r = (none, r))
    ∧ validate_and_consume sig now (createdToken sig nonce now anc p1 reg) none
        (createdReg sig nonce now anc p1 reg) =
      (some ⟨createdToken sig nonce now anc p1 reg, now, anc, nonce, p1⟩,
        eraseAssoc (createdToken sig nonce now anc p1 reg)
          (createdReg sig nonce now anc p1 reg)) := by
  have htok := createdToken_eq sig nonce now anc p1 reg
  have hl := lookupAssoc_createdReg sig nonce now anc p1 reg
  have hfresh : now -
      (StateData.mk (createdToken sig nonce now anc p1 reg) now anc
        nonce p1).created_at ≤ OAUTH_STATE_EXPIRATION := by
    simp [Nat.sub_self, OAUTH_STATE_EXPIRATION]
  refine ⟨?_, ?_, ?_, ?_, ?_, ?_⟩
  · rw [htok]
    have h := validate_and_consume_hit sig now nonce (sig (stateMessage nonce now))
      ⟨createdToken sig nonce now anc p1 reg, now, anc, nonce, p1⟩
      (createdReg sig nonce now anc p1 reg) (some p2) hn hs (htok ▸ hl) hfresh rfl
    simp only [if_neg hp] at h
    exact h
  · intro t r exp hfmt
    unfold validate_and_consume
    by_cases hne : t.isEmpty = true
    · rw [hne]
      rfl
    · rw [Bool.not_eq_true] at hne
      rw [hne, hfmt]
      rfl
  · intro t r exp hlk
    exact validate_and_consume_unknown sig now t exp r hlk
  · intro t r exp sd hfmt hlk hexp
    exact validate_and_consume_expired sig now t exp r sd hfmt hlk hexp
  · intro t r exp sd n2 s2 hfmt hlk hfr hsplit hbad
    exact validate_and_consume_badsig sig now t exp r sd n2 s2 hfmt hlk hfr hsplit hbad
  · rw [htok]
    exact validate_and_consume_hit sig now nonce (sig (stateMessage nonce now))
      ⟨createdToken sig nonce now anc p1 reg, now, anc, nonce, p1⟩
      (createdReg sig nonce now anc p1 reg) none hn hs (htok ▸ hl) hfresh rfl

/-- Witness for C2 at concrete inputs: a token minted for provider `p1`
is refused with expected provider `p2`, an unknown token is refused, an
expired entry is dropped, and a tampered signature is refused. -/
theorem claim_C2_provider_mismatch_witness :
    (("p1".toList : Str) ≠ ("p2".toList : Str)) ∧
    validate_and_consume demoSig 0 (createdToken demoSig (['n']) 0 false ("p1".toList) [])
        (some ("p2".toList)) (createdReg demoSig (['n']) 0 false ("p1".toList) []) =
      (none, createdReg demoSig (['n']) 0 false ("p1".toList) []) ∧
    validate_and_consume demoSig 0 ("x:y".toList) none [] = (none, []) ∧
    validate_and_consume demoSig 700 ("n:3".toList) none
        [(("n:3".toList), ⟨"n:3".toList, 0, false, ['n'], "p1".toList⟩)] =
      (none, []) ∧
    validate_and_consume demoSig 0 ("n:9".toList) none
        [(("n:9".toList), ⟨"n:9".toList, 0, false, ['n'], "p1".toList⟩)] =
      (none, [(("n:9".toList), ⟨"n:9".toList, 0, false, ['n'], "p1".toList⟩)]) :=
  have h := claim_C2_provider_mismatch demoSig (['n']) ("p1".toList) ("p2".toList)
    0 false [] (by decide) (by decide) (by decide)
  have h700 := claim_C2_provider_mismatch demoSig (['n']) ("p1".toList) ("p2".toList)
    700 false [] (by decide) (by decide) (by decide)
  ⟨by decide, h.1,
    h.2.2.1 ("x:y".toList) [] none (by decide),
    by
      rw [h700.2.2.2.1 ("n:3".toList)
        [(("n:3".toList), ⟨"n:3".toList, 0, false, ['n'], "p1".toList⟩)] none
        ⟨"n:3".toList, 0, false, ['n'], "p1".toList⟩ (by decide) (by decide)
        (by decide)]
      decide,
    h.2.2.2.2.1 ("n:9".toList)
      [(("n:9".toList), ⟨"n:9".toList, 0, false, ['n'], "p1".toList⟩)] none
      ⟨"n:9".toList, 0, false, ['n'], "p1".toList⟩ (['n']) (['9'])
      (by decide) (by decide) (by decide) (by decide) (by decide)⟩

/-! ## Helper lemmas: capacity and eviction -/

theorem filter_keys_split (a b : List (Str × StateData))
    (hnd : nodupKeys (a ++ b)) :
    (a ++ b).filter (fun kv => decide (kv.1 ∉ assocKeys a)) = b := by
  unfold nodupKeys assocKeys at hnd
  rw [List.map_append, List.nodup_append] at hnd
  rw [List.filter_append]
  have h1 : a.filter (fun kv => decide (kv.1 ∉ assocKeys a)) = [] := by
    rw [List.filter_eq_nil_iff]
    intro kv hm
    simp only [decide_eq_true_eq, Decidable.not_not]
    exact List.mem_map.mpr ⟨kv, hm, rfl⟩
  have h2 : b.filter (fun kv => decide (kv.1 ∉ assocKeys a)) = b := by
    rw [List.filter_eq_self]
    intro kv hm
    simp only [decide_eq_true_eq]
    intro hin
    exact hnd.2.2 hin (List.mem_map.mpr ⟨kv, hm, rfl⟩)
  rw [h1, h2, List.nil_append]

theorem byCreatedAt_trans (a b c : Str × StateData)
    (hab : byCreatedAt a b = true) (hbc : byCreatedAt b c = true) :
    byCreatedAt a c = true := by
  unfold byCreatedAt at *
  simp only [decide_eq_true_eq] at *
  omega

theorem byCreatedAt_total (a b : Str × StateData) :
    (byCreatedAt a b || byCreatedAt b a) = true := by
  unfold byCreatedAt
  rcases Nat.le_total a.2.created_at b.2.created_at with h | h <;> simp [h]

theorem nodupKeys_of_perm (l l' : List (Str × StateData)) (hp : l.Perm l')
    (h : nodupKeys l) : nodupKeys l' :=
  (hp.map Prod.fst).nodup h

/-- What the eviction step does on a duplicate-free registry: it keeps
exactly `n - n / 2` entries, and every evicted entry is at least as old
as every survivor. -/
theorem evictOldestHalf_spec (reg : StateRegistry) (hnd : nodupKeys reg) :
    (evictOldestHalf reg).length = reg.length - reg.length / 2 ∧
    ∀ p ∈ reg, p ∉ evictOldestHalf reg → ∀ q ∈ evictOldestHalf reg,
      p.2.created_at ≤ q.2.created_at := by
  have hperm : (reg.mergeSort byCreatedAt).Perm reg := List.mergeSort_perm reg _
  have hnds : nodupKeys (reg.mergeSort byCreatedAt) :=
    nodupKeys_of_perm reg _ hperm.symm hnd
  have hsplit : (reg.mergeSort byCreatedAt).take
        ((reg.mergeSort byCreatedAt).length / 2) ++
      (reg.mergeSort byCreatedAt).drop ((reg.mergeSort byCreatedAt).length / 2) =
      reg.mergeSort byCreatedAt :=
    List.take_append_drop _ _
  have hfil := filter_keys_split
    ((reg.mergeSort byCreatedAt).take ((reg.mergeSort byCreatedAt).length / 2))
    ((reg.mergeSort byCreatedAt).drop ((reg.mergeSort byCreatedAt).length / 2))
    (by rw [hsplit]; exact hnds)
  rw [hsplit] at hfil
  have hpermf : ((reg.mergeSort byCreatedAt).filter
        (fun kv => decide (kv.1 ∉ assocKeys ((reg.mergeSort byCreatedAt).take
          ((reg.mergeSort byCreatedAt).length / 2))))).Perm
      (evictOldestHalf reg) := by
    unfold evictOldestHalf
    exact hperm.filter _
  have hlen : (evictOldestHalf reg).length = reg.length - reg.length / 2 := by
    rw [← hpermf.length_eq, hfil, List.length_drop, hperm.length_eq]
  refine ⟨hlen, ?_⟩
  intro p hp hpe q hq
  have hsorted := List.sorted_mergeSort byCreatedAt_trans byCreatedAt_total reg
  rw [← hsplit, List.pairwise_append] at hsorted
  have hqd : q ∈ (reg.mergeSort byCreatedAt).drop
      ((reg.mergeSort byCreatedAt).length / 2) := by
    rw [← hfil]
    exact hpermf.mem_iff.mpr hq
  have hpt : p ∈ (reg.mergeSort byCreatedAt).take
      ((reg.mergeSort byCreatedAt).length / 2) := by
    have hps : p ∈ reg.mergeSort byCreatedAt := hperm.mem_iff.mpr hp
    rw [← hsplit] at hps
    rcases List.mem_append.mp hps with h1 | h2
    · exact h1
    · exfalso
      apply hpe
      apply hpermf.mem_iff.mp
      rw [hfil]
      exact h2
  have := hsorted.2.2 p hpt q hqd
  unfold byCreatedAt at this
  simpa using this

/-- The registry a `validate_state` call leaves behind. -/
theorem validate_state_snd_cases (sig : Str → Str) (now : Nat) (state : Str)
    (reg : StateRegistry) :
    (validate_state sig now state reg).2 = reg ∨
    (validate_state sig now state reg).2 = eraseAssoc state reg := by
  unfold validate_state
  repeat' split
  all_goals first | exact Or.inl rfl | exact Or.inr rfl

/-- The registry a `validate_and_consume` call leaves behind. -/
theorem validate_and_consume_snd_cases (sig : Str → Str) (now : Nat)
    (state : Str) (exp : Option Str) (reg : StateRegistry) :
    (validate_and_consume sig now state exp reg).2 = reg ∨
    (validate_and_consume sig now state exp reg).2 = eraseAssoc state reg := by
  unfold validate_and_consume
  repeat' split
  all_goals first | exact Or.inl rfl | exact Or.inr rfl

/-- The registry a `consume_state` call leaves behind. -/
theorem consume_state_snd_cases (state : Str) (reg : StateRegistry) :
    (consume_state state reg).2 = reg ∨
    (consume_state state reg).2 = eraseAssoc state reg := by
  unfold consume_state
  split
  · exact Or.inr rfl
  · exact Or.inl rfl

theorem regInv_filter (p : Str × StateData → Bool) (reg : StateRegistry)
    (h : RegInv reg) : RegInv (reg.filter p) :=
  ⟨nodupKeys_filter p reg h.1, (List.length_filter_le p reg).trans h.2⟩

theorem regInv_applyRegOp (sig : Str → Str) (op : RegOp) (reg : StateRegistry)
    (h : RegInv reg) : RegInv (applyRegOp sig op reg) := by
  have herase : ∀ s, RegInv (eraseAssoc s reg) := fun s => regInv_filter _ reg h
  cases op with
  | create nonce now anc provider =>
    have h1 : RegInv (cleanup_expired now reg) := regInv_filter _ reg h
    show RegInv (create_state sig nonce now anc provider reg).2
    unfold create_state
    by_cases hc : MAX_PENDING_STATES ≤ (cleanup_expired now reg).length
    · simp only [hc, if_true]
      have hev := evictOldestHalf_spec (cleanup_expired now reg) h1.1
      have hevinv : RegInv (evictOldestHalf (cleanup_expired now reg)) := by
        refine ⟨?_, ?_⟩
        · unfold evictOldestHalf
          exact nodupKeys_filter _ _ h1.1
        · rw [hev.1]
          have := h1.2
          unfold MAX_PENDING_STATES at *
          omega
      constructor
      · exact nodupKeys_insertAssoc _ _ _ hevinv.1
      · refine (length_insertAssoc_le _ _ _).trans ?_
        rw [hev.1]
        have := h1.2
        unfold MAX_PENDING_STATES at *
        omega
    · simp only [hc, if_false]
      constructor
      · exact nodupKeys_insertAssoc _ _ _ h1.1
      · refine (length_insertAssoc_le _ _ _).trans ?_
        unfold MAX_PENDING_STATES at *
        omega
  | validate now state =>
    rcases validate_state_snd_cases sig now state reg with he | he
    · show RegInv (validate_state sig now state reg).2
      rw [he]; exact h
    · show RegInv (validate_state sig now state reg).2
      rw [he]; exact herase state
  | validateAndConsume now state exp =>
    rcases validate_and_consume_snd_cases sig now state exp reg with he | he
    · show RegInv (validate_and_consume sig now state exp reg).2
      rw [he]; exact h
    · show RegInv (validate_and_consume sig now state exp reg).2
      rw [he]; exact herase state
  | consume state =>
    rcases consume_state_snd_cases state reg with he | he
    · show RegInv (consume_state state reg).2
      rw [he]; exact h
    · show RegInv (consume_state state reg).2
      rw [he]; exact herase state
  | cleanup now =>
    exact regInv_filter _ reg h

theorem regInv_applyRegOps (sig : Str → Str) (ops : List RegOp)
    (reg : StateRegistry) (h : RegInv reg) : RegInv (applyRegOps sig ops reg) := by
  induction ops generalizing reg with
  | nil => exact h
  | cons op rest ih => exact ih _ (regInv_applyRegOp sig op reg h)

/-- C3: after every sequence of create/validate/consume/cleanup
operations starting from the empty registry, the registry holds at most
`MAX_PENDING_STATES` entries; and when an insert would exceed capacity —
`create_state` finds the cleaned registry at or above capacity — the
eviction step removes the oldest half by `created_at`: it keeps exactly
`n - n / 2` entries, every evicted entry is at least as old as every
survivor, and `create_state` inserts the new record into the survivors. -/
theorem claim_C3_capacity (sig : Str → Str) (ops : List RegOp)
    (nonce : Str) (now : Nat) (anc : Bool) (provider : Str) (reg : StateRegistry)
    (hnd : nodupKeys (cleanup_expired now reg))
    (hcap : MAX_PENDING_STATES ≤ (cleanup_expired now reg).length) :
    (applyRegOps sig ops []).length ≤ MAX_PENDING_STATES
    ∧ (evictOldestHalf (cleanup_expired now reg)).length =
        (cleanup_expired now reg).length - (cleanup_expired now reg).length / 2
    ∧ (∀ p ∈ cleanup_expired now reg,
        p ∉ evictOldestHalf (cleanup_expired now reg) →
        ∀ q ∈ evictOldestHalf (cleanup_expired now reg),
          p.2.created_at ≤ q.2.created_at)
    ∧ (create_state sig nonce now anc provider reg).2 =
        insertAssoc (nonce ++ ':' :: sig (stateMessage nonce now))
          ⟨nonce ++ ':' :: sig (stateMessage nonce now), now, anc, nonce, provider⟩
          (evictOldestHalf (cleanup_expired now reg)) := by
  have hev := evictOldestHalf_spec (cleanup_expired now reg) hnd
  refine ⟨?_, hev.1, hev.2, ?_⟩
  · exact (regInv_applyRegOps sig ops []
      ⟨List.nodup_nil, by decide⟩).2
  · simp only [create_state]
    rw [if_pos hcap]

/-- Witness for C3 at a registry at capacity. -/
theorem claim_C3_capacity_witness :
    (nodupKeys (cleanup_expired 99 bigReg) ∧
      MAX_PENDING_STATES ≤ (cleanup_expired 99 bigReg).length) ∧
    (evictOldestHalf (cleanup_expired 99 bigReg)).length =
      (cleanup_expired 99 bigReg).length - (cleanup_expired 99 bigReg).length / 2 ∧
    (create_state demoSig (['n']) 99 false (['p']) bigReg).2 =
      insertAssoc ((['n']) ++ ':' :: demoSig (stateMessage (['n']) 99))
        ⟨(['n']) ++ ':' :: demoSig (stateMessage (['n']) 99), 99, false, ['n'], ['p']⟩
        (evictOldestHalf (cleanup_expired 99 bigReg)) :=
  have h := claim_C3_capacity demoSig [] (['n']) 99 false (['p']) bigReg
    (by decide) (by decide)
  ⟨⟨by decide, by decide⟩, h.2.1, h.2.2.2⟩

/-! ## Helper lemmas: rate limiter -/

theorem pruneWindow_all_in (window now : Int) (l : List Int)
    (h : ∀ x ∈ l, now - window < x) : pruneWindow window now l = l :=
  List.filter_eq_self.mpr (fun x hx => decide_eq_true (h x hx))

theorem rateAllow_in_window (limit : Nat) (window t : Int) (l : List Int)
    (h : ∀ x ∈ l, t - window < x) :
    rateAllow limit window t l =
      if limit ≤ l.length then (false, l) else (true, l ++ [t]) := by
  unfold rateAllow
  rw [pruneWindow_all_in window t l h]

/-- The invariant computation for a burst of calls inside one window: with
`done` already accepted, the recorded list is `done.take limit`, every
further call is accepted exactly while fewer than `limit` timestamps are
recorded, and the verdicts follow the call index. -/
theorem rate_aux (limit : Nat) (window : Int) (t0 : Int) (calls : List Int) :
    ∀ done : List Int,
    (∀ x ∈ done ++ calls, t0 ≤ x ∧ x < t0 + window) →
    (done ++ calls).Pairwise (· ≤ ·) →
    processCalls (rateAllow limit window) (done.take limit) calls =
      ((done ++ calls).take limit,
        (List.range calls.length).map (fun i => decide (done.length + i < limit))) := by
  induction calls with
  | nil =>
    intro done hin hpw
    simp [processCalls]
  | cons t ts ih =>
    intro done hin hpw
    have htmem : t ∈ done ++ t :: ts :=
      List.mem_append_right done (List.mem_cons_self t ts)
    have hstep : rateAllow limit window t (done.take limit) =
        if limit ≤ (done.take limit).length then (false, done.take limit)
        else (true, done.take limit ++ [t]) := by
      apply rateAllow_in_window
      intro x hx
      have hxd : x ∈ done := List.mem_of_mem_take hx
      have hx1 : t0 ≤ x := (hin x (List.mem_append_left _ hxd)).1
      have ht2 : t < t0 + window := (hin t htmem).2
      omega
    rw [List.length_take] at hstep
    by_cases hlt : done.length < limit
    · have hcond : ¬ limit ≤ min limit done.length := by omega
      rw [if_neg hcond] at hstep
      have htake2 : done.take limit ++ [t] = (done ++ [t]).take limit := by
        rw [List.take_of_length_le (by omega : done.length ≤ limit),
          List.take_of_length_le]
        rw [List.length_append, List.length_cons, List.length_nil]
        omega
      have hassoc : (done ++ [t]) ++ ts = done ++ t :: ts := by
        rw [List.append_assoc, List.singleton_append]
      have ihr := ih (done ++ [t]) (by rw [hassoc]; exact hin)
        (by rw [hassoc]; exact hpw)
      rw [hassoc] at ihr
      simp only [List.length_append, List.length_cons, List.length_nil] at ihr
      simp only [processCalls, hstep, htake2, ihr]
      congr 1
      rw [List.length_cons, List.range_succ_eq_map, List.map_cons, List.map_map]
      congr 1
      · symm
        simp only [Nat.add_zero, decide_eq_true_eq]
        exact hlt
      · apply List.map_congr_left
        intro i _
        simp only [Function.comp]
        exact decide_eq_decide.mpr (by omega)
    · have hge : limit ≤ done.length := by omega
      have hcond : limit ≤ min limit done.length := by omega
      rw [if_pos hcond] at hstep
      have hsub : (done ++ ts).Sublist (done ++ t :: ts) :=
        List.Sublist.append_left (List.sublist_cons_self t ts) done
      have ihr := ih done (fun x hx => hin x (hsub.mem hx)) (hpw.sublist hsub)
      simp only [processCalls, hstep, ihr]
      congr 1
      · rw [List.take_append_of_le_length hge, List.take_append_of_le_length hge]
      · rw [List.length_cons, List.range_succ_eq_map, List.map_cons, List.map_map]
        congr 1
        · symm
          simp only [Nat.add_zero, decide_eq_false_iff_not]
          omega
        · apply List.map_congr_left
          intro i _
          simp only [Function.comp]
          exact decide_eq_decide.mpr (by omega)

/-- C4: for any burst of nondecreasing calls inside one trailing window,
both rate limiters accept exactly the first `limit` calls and reject the
rest (so the `(limit+1)`-th call in the window is rejected), the recorded
timestamp list is exactly the accepted calls (a rejected call records
nothing), once every recorded timestamp is a full window old a call is
accepted again, and a rejecting call leaves the list equal to the pruned
list, with no new timestamp. -/
theorem claim_C4_rate_limit :
    (∀ (t0 : Int) (calls : List Int),
      (∀ x ∈ calls, t0 ≤ x ∧ x < t0 + RATE_LIMIT_WINDOW) →
      calls.Pairwise (· ≤ ·) →
      processCalls check_rate_limit [] calls =
        (calls.take RATE_LIMIT_REQUESTS,
          (List.range calls.length).map (fun i => decide (i < RATE_LIMIT_REQUESTS))))
    ∧ (∀ (t0 : Int) (calls : List Int),
      (∀ x ∈ calls, t0 ≤ x ∧ x < t0 + AUTH_RATE_LIMIT_WINDOW) →
      calls.Pairwise (· ≤ ·) →
      processCalls check_auth_rate_limit [] calls =
        (calls.take AUTH_RATE_LIMIT_REQUESTS,
          (List.range calls.length).map
            (fun i => decide (i < AUTH_RATE_LIMIT_REQUESTS))))
    ∧ (∀ (now : Int) (l : List Int), (∀ x ∈ l, x + RATE_LIMIT_WINDOW ≤ now) →
        check_rate_limit now l = (true, [now]))
    ∧ (∀ (now : Int) (l : List Int), (∀ x ∈ l, x + AUTH_RATE_LIMIT_WINDOW ≤ now) →
        check_auth_rate_limit now l = (true, [now]))
    ∧ (∀ (now : Int) (l : List Int), (check_rate_limit now l).1 = false →
        (check_rate_limit now l).2 = pruneWindow RATE_LIMIT_WINDOW now l)
    ∧ (∀ (now : Int) (l : List Int), (check_auth_rate_limit now l).1 = false →
        (check_auth_rate_limit now l).2 = pruneWindow AUTH_RATE_LIMIT_WINDOW now l) := by
  have hgen : ∀ (limit : Nat) (window t0 : Int) (calls : List Int),
      (∀ x ∈ calls, t0 ≤ x ∧ x < t0 + window) →
      calls.Pairwise (· ≤ ·) →
      processCalls (rateAllow limit window) [] calls =
        (calls.take limit,
          (List.range calls.length).map (fun i => decide (i < limit))) := by
    intro limit window t0 calls hin hpw
    have h := rate_aux limit window t0 calls []
      (by simpa using hin) (by simpa using hpw)
    simp only [List.take_nil, List.nil_append, List.length_nil, Nat.zero_add] at h
    exact h
  have hreset : ∀ (limit : Nat) (window now : Int) (l : List Int),
      0 < limit → (∀ x ∈ l, x + window ≤ now) →
      rateAllow limit window now l = (true, [now]) := by
    intro limit window now l hpos h
    unfold rateAllow pruneWindow
    have hemp : l.filter (fun ts => decide (now - window < ts)) = [] := by
      rw [List.filter_eq_nil_iff]
      intro x hx
      have := h x hx
      simp only [decide_eq_true_eq]
      omega
    rw [hemp]
    simp only [List.length_nil]
    rw [if_neg (by omega), List.nil_append]
  have hnorec : ∀ (limit : Nat) (window now : Int) (l : List Int),
      (rateAllow limit window now l).1 = false →
      (rateAllow limit window now l).2 = pruneWindow window now l := by
    intro limit window now l hf
    unfold rateAllow at *
    by_cases hc : limit ≤ (pruneWindow window now l).length
    · rw [if_pos hc]
    · rw [if_neg hc] at hf
      simp at hf
  exact ⟨hgen RATE_LIMIT_REQUESTS RATE_LIMIT_WINDOW,
    hgen AUTH_RATE_LIMIT_REQUESTS AUTH_RATE_LIMIT_WINDOW,
    fun now l => hreset RATE_LIMIT_REQUESTS RATE_LIMIT_WINDOW now l (by decide),
    fun now l => hreset AUTH_RATE_LIMIT_REQUESTS AUTH_RATE_LIMIT_WINDOW now l (by decide),
    hnorec RATE_LIMIT_REQUESTS RATE_LIMIT_WINDOW,
    hnorec AUTH_RATE_LIMIT_REQUESTS AUTH_RATE_LIMIT_WINDOW⟩

/-- Witness for C4: a burst of 61 identical-time calls against the
general limiter (limit 60) and 16 against the auth limiter (limit 15),
plus a recovery call one window later. -/
theorem claim_C4_rate_limit_witness :
    ((∀ x ∈ List.replicate 61 (0 : Int), (0 : Int) ≤ x ∧ x < 0 + RATE_LIMIT_WINDOW) ∧
      (List.replicate 61 (0 : Int)).Pairwise (· ≤ ·)) ∧
    processCalls check_rate_limit [] (List.replicate 61 (0 : Int)) =
      ((List.replicate 61 (0 : Int)).take RATE_LIMIT_REQUESTS,
        (List.range (List.replicate 61 (0 : Int)).length).map
          (fun i => decide (i < RATE_LIMIT_REQUESTS))) ∧
    processCalls check_auth_rate_limit [] (List.replicate 16 (0 : Int)) =
      ((List.replicate 16 (0 : Int)).take AUTH_RATE_LIMIT_REQUESTS,
        (List.range (List.replicate 16 (0 : Int)).length).map
          (fun i => decide (i < AUTH_RATE_LIMIT_REQUESTS))) ∧
    check_rate_limit 60 [0] = (true, [60]) :=
  ⟨⟨by decide, by decide⟩,
    claim_C4_rate_limit.1 0 (List.replicate 61 (0 : Int)) (by decide) (by decide),
    claim_C4_rate_limit.2.1 0 (List.replicate 16 (0 : Int)) (by decide) (by decide),
    claim_C4_rate_limit.2.2.1 60 [0] (by decide)⟩

/-! ## Helper lemmas: account ids -/

theorem byteToHex_isHex (b : Nat) : ∀ c ∈ byteToHex b, isLowerHexDigit c = true := by
  have hall : ∀ n, n < 16 → isLowerHexDigit (hexDigitChar n) = true := by decide
  intro c hc
  unfold byteToHex at hc
  rcases List.mem_cons.mp hc with h | h
  · rw [h]
    exact hall _ (Nat.mod_lt _ (by omega))
  · rcases List.mem_cons.mp h with h2 | h2
    · rw [h2]
      exact hall _ (Nat.mod_lt _ (by omega))
    · simp at h2

theorem uuidHex8_length (bytes : List Nat) (h : 4 ≤ bytes.length) :
    (uuidHex8 bytes).length = 8 := by
  rcases bytes with _ | ⟨a, bytes⟩
  · simp at h
  rcases bytes with _ | ⟨b, bytes⟩
  · simp at h
  rcases bytes with _ | ⟨c, bytes⟩
  · simp at h
  rcases bytes with _ | ⟨d, bytes⟩
  · simp at h
  rfl

theorem uuidHex8_isHex (bytes : List Nat) :
    ∀ c ∈ uuidHex8 bytes, isLowerHexDigit c = true := by
  intro c hc
  unfold uuidHex8 at hc
  rw [List.mem_flatten] at hc
  rcases hc with ⟨l, hl, hcl⟩
  rw [List.mem_map] at hl
  rcases hl with ⟨b, _, rfl⟩
  exact byteToHex_isHex b c hcl

/-- C5: `_load_all_data` returns the empty database when the file is
missing, when decryption raises `InvalidToken` and when JSON parsing
raises `JSONDecodeError` (both are caught, so neither reaches the
caller — the model is total); a dict already carrying `"accounts"` is
returned as-is; a dict with neither key yields the empty database; and
the legacy single-account `"openai"` layout is lifted into the
multi-account schema under a fresh id of exactly 8 lowercase hex
characters, which also becomes the active account. -/
theorem claim_C5_load_failures (u : List Nat) (db : AccountDB)
    (toks : TokenData) (hu : 4 ≤ u.length) :
    load_all_data u .missing = emptyDB
    ∧ load_all_data u .decryptFailure = emptyDB
    ∧ load_all_data u .parseFailure = emptyDB
    ∧ load_all_data u (.ok (.withAccounts db)) = db
    ∧ load_all_data u (.ok .otherShape) = emptyDB
    ∧ load_all_data u (.ok (.legacyOpenAI toks)) =
        ⟨[(uuidHex8 u, ⟨"openai".toList, toks, "Account 1".toList⟩)],
          some (uuidHex8 u)⟩
    ∧ (uuidHex8 u).length = ACCOUNT_ID_LENGTH
    ∧ ∀ c ∈ uuidHex8 u, isLowerHexDigit c = true :=
  ⟨rfl, rfl, rfl, rfl, rfl, rfl, uuidHex8_length u hu, uuidHex8_isHex u⟩

/-- Witness for C5 at concrete inputs. -/
theorem claim_C5_load_failures_witness :
    (4 ≤ ([1, 2, 3, 4] : List Nat).length) ∧
    load_all_data [1, 2, 3, 4] .decryptFailure = emptyDB ∧
    load_all_data [1, 2, 3, 4] (.ok (.legacyOpenAI ⟨['a'], ['r'], 0⟩)) =
      ⟨[(uuidHex8 [1, 2, 3, 4],
          ⟨"openai".toList, ⟨['a'], ['r'], 0⟩, "Account 1".toList⟩)],
        some (uuidHex8 [1, 2, 3, 4])⟩ ∧
    (uuidHex8 [1, 2, 3, 4]).length = ACCOUNT_ID_LENGTH :=
  have h := claim_C5_load_failures [1, 2, 3, 4] emptyDB ⟨['a'], ['r'], 0⟩ (by decide)
  ⟨by decide, h.2.1, h.2.2.2.2.2.1, h.2.2.2.2.2.2.1⟩

/-! ## Helper lemmas: credential store invariant -/

theorem containsKey_iff_mem_keys {α : Type} (k : Str) (l : List (Str × α)) :
    containsKey k l = true ↔ k ∈ assocKeys l := by
  unfold containsKey
  exact lookupAssoc_isSome_iff k l

theorem containsKey_insertAssoc_self {α : Type} (k : Str) (v : α)
    (l : List (Str × α)) : containsKey k (insertAssoc k v l) = true := by
  unfold containsKey
  rw [lookupAssoc_insertAssoc_self]
  rfl

theorem assocKeys_map_fst_preserving {α : Type} (f : Str × α → Str × α)
    (l : List (Str × α)) (hf : ∀ kv, (f kv).1 = kv.1) :
    assocKeys (l.map f) = assocKeys l := by
  unfold assocKeys
  rw [List.map_map]
  exact List.map_congr_left (fun kv _ => hf kv)

theorem containsKey_insertAssoc_of {α : Type} (x k : Str) (v : α)
    (l : List (Str × α)) (h : containsKey x l = true) :
    containsKey x (insertAssoc k v l) = true := by
  rw [containsKey_iff_mem_keys] at h ⊢
  unfold insertAssoc
  split
  · rw [assocKeys_replace]
    exact h
  · unfold assocKeys
    rw [List.map_append]
    exact List.mem_append_left _ h

theorem containsKey_eraseAssoc_ne {α : Type} (x k : Str) (l : List (Str × α))
    (h : x ≠ k) : containsKey x (eraseAssoc k l) = containsKey x l := by
  unfold containsKey
  rw [lookupAssoc_eraseAssoc_ne x k l h]

theorem activeWF_create_account (u : List Nat) (provider : Str)
    (tokens : TokenData) (name : Option Str) (db : AccountDB)
    (h : ActiveWF db) : ActiveWF (create_account u provider tokens name db).2 := by
  intro a ha
  unfold create_account at ha ⊢
  simp only at ha ⊢
  cases hdb : db.active_account with
  | none =>
    rw [hdb] at ha
    injection ha with h1
    subst h1
    exact containsKey_insertAssoc_self _ _ _
  | some a0 =>
    rw [hdb] at ha
    injection ha with h1
    subst h1
    exact containsKey_insertAssoc_of _ _ _ _ (h a0 hdb)

theorem activeWF_set_active (id : Str) (db : AccountDB) (h : ActiveWF db) :
    ActiveWF (set_active_account id db).2 := by
  unfold set_active_account
  by_cases hc : containsKey id db.accounts = true
  · rw [if_pos hc]
    intro a ha
    simp only at ha ⊢
    injection ha with h1
    subst h1
    exact hc
  · rw [if_neg hc]
    exact h

theorem activeWF_update_name (id nm : Str) (db : AccountDB) (h : ActiveWF db) :
    ActiveWF (update_account_name id nm db).2 := by
  unfold update_account_name
  by_cases hc : containsKey id db.accounts = true
  · rw [if_pos hc]
    intro a ha
    simp only at ha ⊢
    rw [containsKey_iff_mem_keys,
      assocKeys_map_fst_preserving _ _ (fun kv => by split <;> rfl),
      ← containsKey_iff_mem_keys]
    exact h a ha
  · rw [if_neg hc]
    exact h

theorem activeWF_update_tokens (id : Str) (tokens : TokenData) (db : AccountDB)
    (h : ActiveWF db) : ActiveWF (update_account_tokens id tokens db).2 := by
  unfold update_account_tokens
  by_cases hc : containsKey id db.accounts = true
  · rw [if_pos hc]
    intro a ha
    simp only at ha ⊢
    rw [containsKey_iff_mem_keys,
      assocKeys_map_fst_preserving _ _ (fun kv => by split <;> rfl),
      ← containsKey_iff_mem_keys]
    exact h a ha
  · rw [if_neg hc]
    exact h

theorem activeWF_delete_account (id : Str) (db : AccountDB) (h : ActiveWF db) :
    ActiveWF (delete_account id db).2 := by
  unfold delete_account
  by_cases hc : containsKey id db.accounts = true
  · rw [if_pos hc]
    intro a ha
    simp only at ha ⊢
    by_cases hact : db.active_account = some id
    · rw [if_pos hact] at ha
      cases hh : (eraseAssoc id db.accounts).head? with
      | none =>
        rw [hh] at ha
        simp at ha
      | some kv =>
        rw [hh] at ha
        simp only [Option.map_some'] at ha
        injection ha with h1
        subst h1
        rw [containsKey_iff_mem_keys]
        exact List.mem_map.mpr
          ⟨kv, List.mem_of_mem_head? (by simp [Option.mem_def, hh]), rfl⟩
    · rw [if_neg hact] at ha
      have hne : a ≠ id := fun he => hact (he ▸ ha)
      rw [containsKey_eraseAssoc_ne a id _ hne]
      exact h a ha
  · rw [if_neg hc]
    exact h

theorem activeWF_save_tokens (u : List Nat) (provider : Str)
    (tokens : TokenData) (db : AccountDB) (h : ActiveWF db) :
    ActiveWF (save_tokens u provider tokens db).2 := by
  unfold save_tokens
  cases get_active_account provider db with
  | none =>
    simp only
    exact activeWF_create_account u provider tokens none db h
  | some pair =>
    obtain ⟨pid, pacc⟩ := pair
    simp only
    exact activeWF_update_tokens pid tokens db h

theorem activeWF_delete_tokens (provider : Str) (db : AccountDB)
    (h : ActiveWF db) : ActiveWF (delete_tokens provider db).2 := by
  unfold delete_tokens
  cases get_active_account provider db with
  | none => exact h
  | some pair =>
    obtain ⟨pid, pacc⟩ := pair
    simp only
    exact activeWF_delete_account pid db h

theorem activeWF_applyCredOp (op : CredOp) (db : AccountDB) (h : ActiveWF db) :
    ActiveWF (applyCredOp op db) := by
  cases op with
  | createAcc u provider tokens name => exact activeWF_create_account u provider tokens name db h
  | setActive id => exact activeWF_set_active id db h
  | rename id nm => exact activeWF_update_name id nm db h
  | updateTok id tokens => exact activeWF_update_tokens id tokens db h
  | deleteAcc id => exact activeWF_delete_account id db h
  | legacySave u provider tokens => exact activeWF_save_tokens u provider tokens db h
  | legacyDelete provider => exact activeWF_delete_tokens provider db h

theorem activeWF_applyCredOps (ops : List CredOp) (db : AccountDB)
    (h : ActiveWF db) : ActiveWF (applyCredOps ops db) := by
  induction ops generalizing db with
  | nil => exact h
  | cons op rest ih => exact ih _ (activeWF_applyCredOp op db h)

theorem delete_account_promotes (db : AccountDB) (id : Str)
    (hc : containsKey id db.accounts = true)
    (ha : db.active_account = some id) :
    ((delete_account id db).2.accounts = [] →
      (delete_account id db).2.active_account = none)
    ∧ ((delete_account id db).2.accounts ≠ [] →
      ∃ a, (delete_account id db).2.active_account = some a ∧
        containsKey a (delete_account id db).2.accounts = true) := by
  simp only [delete_account]
  rw [if_pos hc, if_pos ha]
  simp only
  constructor
  · intro he
    rw [he]
    rfl
  · intro hne
    cases hh : (eraseAssoc id db.accounts).head? with
    | none =>
      rw [List.head?_eq_none_iff] at hh
      exact absurd hh hne
    | some kv =>
      refine ⟨kv.1, ?_, ?_⟩
      · rfl
      · rw [containsKey_iff_mem_keys]
        exact List.mem_map.mpr
          ⟨kv, List.mem_of_mem_head? (by simp [Option.mem_def, hh]), rfl⟩

/-- C6: every credential-store operation preserves the invariant that
`active_account`, when set, keys an existing account (in particular any
sequence of operations from the empty database does); deleting the
active account promotes the first remaining account to active, and
deleting the last account clears `active_account` to `none`. -/
theorem claim_C6_active_account (op : CredOp) (db0 : AccountDB)
    (ops : List CredOp) (db : AccountDB) (id : Str)
    (h0 : ActiveWF db0) (hc : containsKey id db.accounts = true)
    (ha : db.active_account = some id) :
    ActiveWF (applyCredOp op db0)
    ∧ ActiveWF (applyCredOps ops emptyDB)
    ∧ ((delete_account id db).2.accounts = [] →
        (delete_account id db).2.active_account = none)
    ∧ ((delete_account id db).2.accounts ≠ [] →
        ∃ a, (delete_account id db).2.active_account = some a ∧
          containsKey a (delete_account id db).2.accounts = true) :=
  ⟨activeWF_applyCredOp op db0 h0,
    activeWF_applyCredOps ops emptyDB (fun a ha0 => by cases ha0),
    (delete_account_promotes db id hc ha).1,
    (delete_account_promotes db id hc ha).2⟩

/-- Witness for C6: deleting the active account of a two-account database
promotes the remaining account; deleting the only account clears the
active marker. -/
theorem claim_C6_active_account_witness :
    (containsKey (['a'])
        ([((['a']), ⟨['p'], ⟨[], [], 0⟩, ['n']⟩),
          ((['b']), ⟨['p'], ⟨[], [], 0⟩, ['m']⟩)] :
          List (Str × Account)) = true ∧
      (AccountDB.mk
        [((['a']), ⟨['p'], ⟨[], [], 0⟩, ['n']⟩),
          ((['b']), ⟨['p'], ⟨[], [], 0⟩, ['m']⟩)]
        (some (['a']))).active_account = some (['a'])) ∧
    ActiveWF (applyCredOp (CredOp.deleteAcc (['a']))
      (AccountDB.mk
        [((['a']), ⟨['p'], ⟨[], [], 0⟩, ['n']⟩),
          ((['b']), ⟨['p'], ⟨[], [], 0⟩, ['m']⟩)]
        (some (['a'])))) ∧
    ((delete_account (['a'])
        (AccountDB.mk
          [((['a']), ⟨['p'], ⟨[], [], 0⟩, ['n']⟩),
            ((['b']), ⟨['p'], ⟨[], [], 0⟩, ['m']⟩)]
          (some (['a'])))).2.accounts ≠ [] →
      ∃ a, (delete_account (['a'])
          (AccountDB.mk
            [((['a']), ⟨['p'], ⟨[], [], 0⟩, ['n']⟩),
              ((['b']), ⟨['p'], ⟨[], [], 0⟩, ['m']⟩)]
            (some (['a'])))).2.active_account = some a ∧
        containsKey a (delete_account (['a'])
          (AccountDB.mk
            [((['a']), ⟨['p'], ⟨[], [], 0⟩, ['n']⟩),
              ((['b']), ⟨['p'], ⟨[], [], 0⟩, ['m']⟩)]
            (some (['a'])))).2.accounts = true) :=
  have h := claim_C6_active_account (CredOp.deleteAcc (['a']))
    (AccountDB.mk
      [((['a']), ⟨['p'], ⟨[], [], 0⟩, ['n']⟩),
        ((['b']), ⟨['p'], ⟨[], [], 0⟩, ['m']⟩)]
      (some (['a'])))
    [] (AccountDB.mk
      [((['a']), ⟨['p'], ⟨[], [], 0⟩, ['n']⟩),
        ((['b']), ⟨['p'], ⟨[], [], 0⟩, ['m']⟩)]
      (some (['a'])))
    (['a'])
    (fun a ha => by injection ha with h1; subst h1; decide)
    (by decide) (by decide)
  ⟨⟨by decide, by decide⟩, h.1, h.2.2.2⟩

/-! ## Helper lemmas: limits cache merge -/

theorem lookupAssoc_append {α : Type} (k : Str) (l l' : List (Str × α)) :
    lookupAssoc k (l ++ l') =
      match lookupAssoc k l with
      | some v => some v
      | none => lookupAssoc k l' := by
  induction l with
  | nil => rfl
  | cons kv rest ih =>
    rw [List.cons_append, lookupAssoc_cons, lookupAssoc_cons]
    by_cases hk : kv.1 = k
    · rw [if_pos hk, if_pos hk]
    · rw [if_neg hk, if_neg hk, ih]

theorem lookupAssoc_replace_ne {α : Type} (k k' : Str) (v : α)
    (l : List (Str × α)) (he : ¬ k' = k) :
    lookupAssoc k (l.map (fun kv => if kv.1 = k' then (k', v) else kv)) =
      lookupAssoc k l := by
  induction l with
  | nil => rfl
  | cons kv rest ih =>
    rw [List.map_cons]
    by_cases hk : kv.1 = k'
    · rw [if_pos hk]
      simp only [lookupAssoc]
      rw [if_neg he, if_neg (fun h => he (hk.symm.trans h)), ih]
    · rw [if_neg hk]
      simp only [lookupAssoc]
      rw [ih]

theorem lookupAssoc_insertAssoc {α : Type} (k k' : Str) (v : α)
    (l : List (Str × α)) :
    lookupAssoc k (insertAssoc k' v l) =
      if k' = k then some v else lookupAssoc k l := by
  by_cases he : k' = k
  · subst he
    rw [if_pos rfl]
    exact lookupAssoc_insertAssoc_self k' v l
  · rw [if_neg he]
    unfold insertAssoc
    split
    · exact lookupAssoc_replace_ne k k' v l he
    · rw [lookupAssoc_append]
      cases hv : lookupAssoc k l with
      | some w => rfl
      | none =>
        simp only [lookupAssoc]
        rw [if_neg he]

theorem roundEntry_key {α : Type} (np : Str × ProviderRound α) (x : Str × α)
    (h : roundEntry np = some x) : x.1 = np.1 := by
  unfold roundEntry at h
  split at h
  · split at h
    · injection h with h1
      rw [← h1]
    · cases h
  · cases h

theorem collect_aux {α : Type} (providers : List (Str × ProviderRound α)) :
    ∀ acc : List (Str × α),
    (∀ np ∈ providers, containsKey np.1 acc = false) →
    nodupKeys providers →
    providers.foldl (fun acc np =>
      if np.2.is_authenticated then
        match np.2.fetch with
        | .ok l => insertAssoc np.1 l acc
        | .error _ => acc
      else acc) acc = acc ++ providers.filterMap roundEntry := by
  induction providers with
  | nil =>
    intro acc _ _
    simp
  | cons p ps ih =>
    intro acc hacc hnd
    unfold nodupKeys assocKeys at hnd
    rw [List.map_cons, List.nodup_cons] at hnd
    rw [List.foldl_cons, List.filterMap_cons]
    have hkey : ¬ containsKey p.1 acc = true := by
      rw [hacc p (List.mem_cons_self p ps)]
      simp
    have hrest : ∀ np ∈ ps, containsKey np.1 acc = false :=
      fun np hm => hacc np (List.mem_cons_of_mem p hm)
    cases hauth : p.2.is_authenticated with
    | false =>
      have hre : roundEntry p = none := by
        unfold roundEntry
        rw [hauth]
        rfl
      rw [hre]
      change List.foldl _ acc ps = acc ++ List.filterMap roundEntry ps
      exact ih acc hrest hnd.2
    | true =>
      cases hf : p.2.fetch with
      | error e =>
        have hre : roundEntry p = none := by
          unfold roundEntry
          rw [hauth, hf]
          rfl
        rw [hre]
        change List.foldl _ acc ps = acc ++ List.filterMap roundEntry ps
        exact ih acc hrest hnd.2
      | ok l =>
        have hre : roundEntry p = some (p.1, l) := by
          unfold roundEntry
          rw [hauth, hf]
          rfl
        rw [hre]
        have hins : insertAssoc p.1 l acc = acc ++ [(p.1, l)] := by
          unfold insertAssoc
          rw [if_neg hkey]
        change List.foldl _ (insertAssoc p.1 l acc) ps =
          acc ++ ((p.1, l) :: List.filterMap roundEntry ps)
        rw [hins]
        have hacc2 : ∀ np ∈ ps, containsKey np.1 (acc ++ [(p.1, l)]) = false := by
          intro np hm
          unfold containsKey
          rw [lookupAssoc_append]
          have h1 := hacc np (List.mem_cons_of_mem p hm)
          unfold containsKey at h1
          cases hv : lookupAssoc np.1 acc with
          | some w =>
            rw [hv] at h1
            cases h1
          | none =>
            simp only
            rw [lookupAssoc_cons, if_neg ?_]
            · rfl
            · intro he
              exact hnd.1 (he ▸ List.mem_map.mpr ⟨np, hm, rfl⟩)
        rw [ih (acc ++ [(p.1, l)]) hacc2 hnd.2, List.append_assoc,
          List.singleton_append]

theorem collectNewLimits_eq {α : Type} (providers : List (Str × ProviderRound α))
    (hnd : nodupKeys providers) :
    collectNewLimits providers = providers.filterMap roundEntry := by
  unfold collectNewLimits
  rw [collect_aux providers [] (fun np _ => rfl) hnd, List.nil_append]

theorem assocKeys_filterMap_round {α : Type}
    (providers : List (Str × ProviderRound α)) :
    (assocKeys (providers.filterMap roundEntry)).Sublist (assocKeys providers) := by
  induction providers with
  | nil => exact List.Sublist.refl _
  | cons p ps ih =>
    rw [List.filterMap_cons]
    cases hre : roundEntry p with
    | none =>
      unfold assocKeys
      rw [List.map_cons]
      exact (ih).cons p.1
    | some x =>
      unfold assocKeys
      rw [List.map_cons, List.map_cons, roundEntry_key p x hre]
      exact (ih).cons₂ p.1

theorem lookup_mergeLimits {α : Type} (news : List (Str × α)) :
    ∀ (cache : List (Str × α)) (k : Str), nodupKeys news →
    lookupAssoc k (mergeLimits cache news) =
      match lookupAssoc k news with
      | some v => some v
      | none => lookupAssoc k cache := by
  induction news with
  | nil =>
    intro cache k _
    rfl
  | cons n rest ih =>
    intro cache k hnd
    unfold nodupKeys assocKeys at hnd
    rw [List.map_cons, List.nodup_cons] at hnd
    unfold mergeLimits at ih ⊢
    rw [List.foldl_cons, ih (insertAssoc n.1 n.2 cache) k hnd.2,
      lookupAssoc_insertAssoc, lookupAssoc_cons]
    by_cases hk : n.1 = k
    · rw [if_pos hk, if_pos hk]
      have hrest : lookupAssoc k rest = none := by
        rw [lookupAssoc_eq_none_iff]
        rw [← hk]
        exact hnd.1
      rw [hrest]
    · rw [if_neg hk, if_neg hk]

/-- C7: in a refresh round over a duplicate-free provider table, a
provider whose fetch raises keeps its previous cache entry unchanged, an
authenticated provider whose fetch succeeds gets its result merged, a
cached entry never disappears, and providers outside the table are
untouched. -/
theorem claim_C7_refresh_isolation {α : Type}
    (providers : List (Str × ProviderRound α)) (cache : List (Str × α))
    (hnd : nodupKeys providers) :
    (∀ (name : Str) (pr : ProviderRound α), (name, pr) ∈ providers →
      pr.fetch = Except.error () →
      lookupAssoc name (run_update_all_limits providers cache) =
        lookupAssoc name cache)
    ∧ (∀ (name : Str) (pr : ProviderRound α) (l : α), (name, pr) ∈ providers →
      pr.is_authenticated = true → pr.fetch = Except.ok l →
      lookupAssoc name (run_update_all_limits providers cache) = some l)
    ∧ (∀ (name : Str) (v : α), lookupAssoc name cache = some v →
      (lookupAssoc name (run_update_all_limits providers cache)).isSome = true)
    ∧ (∀ name : Str, name ∉ assocKeys providers →
      lookupAssoc name (run_update_all_limits providers cache) =
        lookupAssoc name cache) := by
  have hnews : nodupKeys (providers.filterMap roundEntry) :=
    (assocKeys_filterMap_round providers).nodup hnd
  have hrun : ∀ k : Str,
      lookupAssoc k (run_update_all_limits providers cache) =
        match lookupAssoc k (providers.filterMap roundEntry) with
        | some v => some v
        | none => lookupAssoc k cache := by
    intro k
    unfold run_update_all_limits
    rw [collectNewLimits_eq providers hnd]
    exact lookup_mergeLimits _ cache k hnews
  have hnotin : ∀ name : Str, name ∉ assocKeys (providers.filterMap roundEntry) →
      lookupAssoc name (run_update_all_limits providers cache) =
        lookupAssoc name cache := by
    intro name hno
    rw [hrun name, (lookupAssoc_eq_none_iff _ _).mpr hno]
  refine ⟨?_, ?_, ?_, ?_⟩
  · intro name pr hm hf
    apply hnotin
    intro hin
    unfold assocKeys at hin
    rcases List.mem_map.mp hin with ⟨x, hx, hx1⟩
    rcases List.mem_filterMap.mp hx with ⟨np, hnp, hre⟩
    have hk : np.1 = name := by rw [← hx1, roundEntry_key np x hre]
    have hlp : lookupAssoc name providers = some pr :=
      lookupAssoc_of_mem_nodup name pr providers hm hnd
    have hlnp : lookupAssoc name providers = some np.2 := by
      rw [← hk]
      exact lookupAssoc_of_mem_nodup np.1 np.2 providers hnp hnd
    have hpr : np.2 = pr := by
      rw [hlp] at hlnp
      injection hlnp with h1
      rw [h1]
    unfold roundEntry at hre
    rw [hpr, hf] at hre
    split at hre
    · cases hre
    · cases hre
  · intro name pr l hm hauth hf
    rw [hrun name]
    have hmem : (name, l) ∈ providers.filterMap roundEntry := by
      apply List.mem_filterMap.mpr
      refine ⟨(name, pr), hm, ?_⟩
      unfold roundEntry
      rw [hauth, hf]
      rfl
    rw [lookupAssoc_of_mem_nodup name l _ hmem hnews]
  · intro name v hv
    rw [hrun name]
    cases hw : lookupAssoc name (providers.filterMap roundEntry) with
    | some w => rfl
    | none =>
      simp only
      rw [hv]
      rfl
  · intro name hno
    apply hnotin
    intro hin
    exact hno ((assocKeys_filterMap_round providers).mem hin)

/-- Witness for C7: two providers, one fetch succeeds, one raises; the
raising provider keeps its stale cache entry, the succeeding one is
merged, and the cache loses nothing. -/
theorem claim_C7_refresh_isolation_witness :
    nodupKeys ([(("a".toList), ⟨true, Except.ok 1⟩),
        (("b".toList), ⟨true, Except.error ()⟩)] :
        List (Str × ProviderRound Nat)) ∧
    lookupAssoc ("b".toList)
      (run_update_all_limits
        [(("a".toList), ⟨true, Except.ok 1⟩),
          (("b".toList), ⟨true, Except.error ()⟩)]
        [(("b".toList), 7)]) = lookupAssoc ("b".toList) [(("b".toList), 7)] ∧
    lookupAssoc ("a".toList)
      (run_update_all_limits
        [(("a".toList), ⟨true, Except.ok 1⟩),
          (("b".toList), ⟨true, Except.error ()⟩)]
        [(("b".toList), 7)]) = some 1 :=
  have h := claim_C7_refresh_isolation
    [(("a".toList), ⟨true, Except.ok 1⟩), (("b".toList), ⟨true, Except.error ()⟩)]
    [(("b".toList), 7)] (by decide)
  ⟨by decide,
    h.1 ("b".toList) ⟨true, Except.error ()⟩
      (List.mem_cons_of_mem _ (List.mem_cons_self _ _)) rfl,
    h.2.1 ("a".toList) ⟨true, Except.ok 1⟩ 1 (List.mem_cons_self _ _) rfl rfl⟩

/-- C8 (code bug): evaluating `OpenAIOAuth.refresh_tokens` at the
repository's own test input (`test_refresh_tokens_missing_refresh_token`:
a stored refresh token and a 200 response whose JSON omits
`refresh_token`): the code indexes `data["refresh_token"]` directly, so a
`KeyError` escapes instead of the old refresh token being reused and the
new token set persisted.  The remaining conjuncts document the retry
behaviour the claim gets right: three network errors give up after
sleeping 1 s then 2 s, a 4xx returns `None` with no retry and no sleep,
and a 5xx followed by a good 200 retries once after a 1 s sleep and
persists the result. -/
theorem claim_C8_refresh_keyerror :
    refresh_tokens 0 (some (some ("stored_refresh".toList)))
        (fun _ => .response 200 (some ⟨some (['a']), none, some 3600⟩)) =
      ⟨.error (.keyError ("refresh_token".toList)), [], none⟩
    ∧ refresh_tokens 0 (some (some ("stored_refresh".toList)))
        (fun _ => .netError) = ⟨.ok none, [1, 2], none⟩
    ∧ refresh_tokens 0 (some (some ("stored_refresh".toList)))
        (fun _ => .response 400 none) = ⟨.ok none, [], none⟩
    ∧ refresh_tokens 0 (some (some ("stored_refresh".toList)))
        (fun n => if n = 0 then .response 503 none
          else .response 200 (some ⟨some (['a']), some (['r']), some 3600⟩)) =
      ⟨.ok (some ⟨['a'], ['r'], 3600⟩), [1], some ⟨['a'], ['r'], 3600⟩⟩ :=
  ⟨rfl, rfl, rfl, rfl⟩

/-- C9: `create_account` discards the result of `_save_all_data`: the
returned fresh id is the same whether the encrypted save succeeds or
fails, so the caller cannot observe the storage failure; after a failed
save the disk still holds the old database, in which the reported id
keys nothing. -/
theorem claim_C9_create_ignores_save (u : List Nat) (provider : Str)
    (tokens : TokenData) (name : Option Str) (disk : AccountDB) :
    (create_account_persisted u provider tokens name disk false).1 =
      (create_account_persisted u provider tokens name disk true).1
    ∧ (create_account_persisted u provider tokens name disk false).1 = uuidHex8 u
    ∧ (create_account_persisted u provider tokens name disk false).2 = disk
    ∧ (containsKey (uuidHex8 u) disk.accounts = false →
        lookupAssoc (create_account_persisted u provider tokens name disk false).1
          disk.accounts = none) := by
  refine ⟨rfl, rfl, rfl, ?_⟩
  intro h
  show lookupAssoc (uuidHex8 u) disk.accounts = none
  unfold containsKey at h
  cases hv : lookupAssoc (uuidHex8 u) disk.accounts with
  | none => rfl
  | some w =>
    rw [hv] at h
    cases h

/-- Witness for C9 on the empty database with a failing save. -/
theorem claim_C9_create_ignores_save_witness :
    containsKey (uuidHex8 [1, 2, 3, 4]) emptyDB.accounts = false ∧
    (create_account_persisted [1, 2, 3, 4] (['p']) ⟨[], [], 0⟩ none emptyDB
      false).2 = emptyDB ∧
    lookupAssoc (create_account_persisted [1, 2, 3, 4] (['p']) ⟨[], [], 0⟩ none
      emptyDB false).1 emptyDB.accounts = none :=
  have h := claim_C9_create_ignores_save [1, 2, 3, 4] (['p']) ⟨[], [], 0⟩ none emptyDB
  ⟨by decide, h.2.2.1, h.2.2.2 (by decide)⟩

theorem lookupAssoc_mem {α : Type} (k : Str) (v : α) (l : List (Str × α))
    (h : lookupAssoc k l = some v) : (k, v) ∈ l := by
  induction l with
  | nil => cases h
  | cons kv rest ih =>
    obtain ⟨k1, v1⟩ := kv
    rw [lookupAssoc_cons] at h
    by_cases hk : (k1, v1).1 = k
    · rw [if_pos hk] at h
      injection h with h1
      simp only at hk h1
      subst hk
      subst h1
      exact List.mem_cons_self _ _
    · rw [if_neg hk] at h
      exact List.mem_cons_of_mem _ (ih h)

theorem get_active_account_none (provider : Str) (db : AccountDB)
    (h : ∀ kv ∈ db.accounts, kv.2.provider ≠ provider) :
    get_active_account provider db = none := by
  unfold get_active_account
  have hfb : db.accounts.find? (fun kv => decide (kv.2.provider = provider)) =
      none := by
    rw [List.find?_eq_none]
    intro kv hm
    simp only [decide_eq_true_eq]
    exact h kv hm
  cases hact : db.active_account with
  | none => exact hfb
  | some aid =>
    simp only
    split
    · exact hfb
    · cases hl : lookupAssoc aid db.accounts with
      | none => exact hfb
      | some acc =>
        simp only
        rw [if_neg (h (aid, acc) (lookupAssoc_mem aid acc db.accounts hl))]
        exact hfb

/-- C10: the legacy `delete_tokens`, and hence `OpenAIOAuth.logout`,
returns `True` and leaves the database untouched when no account exists
for the given provider — logging out of a never-authenticated provider
reports success rather than a not-found signal. -/
theorem claim_C10_logout_vacuous_true (provider : Str) (db : AccountDB)
    (h : ∀ kv ∈ db.accounts, kv.2.provider ≠ provider) :
    delete_tokens provider db = (true, db)
    ∧ ((∀ kv ∈ db.accounts, kv.2.provider ≠ ("openai".toList : Str)) →
        logout_openai db = (true, db)) := by
  constructor
  · unfold delete_tokens
    rw [get_active_account_none provider db h]
  · intro h2
    unfold logout_openai delete_tokens
    rw [get_active_account_none _ db h2]

/-- Witness for C10: a database holding only an account of another
provider reports a successful logout for provider `y` and for openai. -/
theorem claim_C10_logout_vacuous_true_witness :
    (∀ kv ∈ (AccountDB.mk [((['a']), ⟨['x'], ⟨[], [], 0⟩, ['n']⟩)]
        (some (['a']))).accounts, kv.2.provider ≠ (['y'] : Str)) ∧
    delete_tokens (['y'])
      (AccountDB.mk [((['a']), ⟨['x'], ⟨[], [], 0⟩, ['n']⟩)] (some (['a']))) =
      (true, AccountDB.mk [((['a']), ⟨['x'], ⟨[], [], 0⟩, ['n']⟩)] (some (['a']))) ∧
    logout_openai
      (AccountDB.mk [((['a']), ⟨['x'], ⟨[], [], 0⟩, ['n']⟩)] (some (['a']))) =
      (true, AccountDB.mk [((['a']), ⟨['x'], ⟨[], [], 0⟩, ['n']⟩)] (some (['a']))) :=
  have h := claim_C10_logout_vacuous_true (['y'])
    (AccountDB.mk [((['a']), ⟨['x'], ⟨[], [], 0⟩, ['n']⟩)] (some (['a'])))
    (by decide)
  ⟨by decide, h.1, h.2 (by decide)⟩

end AICap
